import Mathlib

/-!
Supernova: exchange client dispatch, candle fetch and trend engine.

A shallow embedding of

* `internal/client/indodax.go` : `nextNonce`, `doSigned`
* `internal/client/binance.go` : `FetchKlines`
* `internal/service/trend.go`  : `ewma`, `computeIndicator`, `UpdateTrends`

Conventions of the embedding.

* Go `int64` is `Int` with an explicit two's-complement wrap (`wrapInt64`).
* Go `error` values are their message strings; `fmt.Errorf("p: %w", err)` is `"p: " ++ err`.
* A Go `map[string]string` is an association list with pairwise distinct keys; the order of the
  list stands for the (unspecified) iteration order of `range`.
* The injected `*http.Client` is a script: the outcome of the k-th call of `Do` in one `doSigned`.
* The body of the request is a reader made once from the encoded string; a `Do` that sends the
  request reads it to its end, and what each `Do` can read is recorded (`bodyRead`).
* Library functions the code calls but the repository does not define (`url.QueryEscape`,
  HMAC-SHA512 + hex, `json.Unmarshal`, `strconv.ParseFloat`) are parameters.
* `float64` of the trend engine is IEEE 754 binary64 (`F64`): finite values, infinities and NaN,
  every operation rounded to nearest, ties to even, none fused; `math.Pow` is the algorithm of
  the Go standard library for an integer exponent. `strconv.ParseFloat` may return any `F64`.
* The formula of the spec in exact arithmetic is kept apart over `ℚ`, under names ending in
  `Exact`, to compare the code with.
* A Go call that can panic ends in a `Run`: a value, an error, or a panic.
* The database of `UpdateTrends` is a script of call results; the calls made are recorded.
-/

namespace Supernova

/-! ## Data model of `internal/client` -/

/-- Two's-complement wrap of a mathematical integer into the `int64` range. -/
def wrapInt64 (x : Int) : Int := (x + 2 ^ 63) % 2 ^ 64 - 2 ^ 63

/-- Largest `int64`. -/
def maxInt64 : Int := 2 ^ 63 - 1

/-- Smallest `int64`. -/
def minInt64 : Int := -(2 ^ 63)

/-- Decimal rendering `strconv.FormatInt(n, 10)`, also what `%d` prints. -/
def formatInt : Int → String
  | Int.ofNat k => Nat.repr k
  | Int.negSucc k => "-" ++ Nat.repr (k + 1)

/-- The `Config` struct. -/
structure Config where
  APIKey : String
  APISecret : String
  deriving DecidableEq, Repr

/-- The `IndodaxClient` struct: the fields that carry state (`mu` only serialises `nextNonce`,
`httpClient` is the script handed to `doSigned`). -/
structure IndodaxClient where
  config : Config
  nonce : Int
  deriving DecidableEq, Repr

/-- The method `nextNonce`: `c.nonce++; return c.nonce` on an `int64`. -/
def nextNonce (c : IndodaxClient) : IndodaxClient × Int :=
  let n := wrapInt64 (c.nonce + 1)
  (⟨c.config, n⟩, n)

/-- The values returned by `N` successive `nextNonce` calls, with the client afterwards. -/
def nextNonceN : Nat → IndodaxClient → IndodaxClient × List Int
  | 0, c => (c, [])
  | k + 1, c =>
    let r := nextNonce c
    let rest := nextNonceN k r.1
    (rest.1, r.2 :: rest.2)

/-- Go `map[string]string` assignment `m[k] = v`. -/
def mapSet (m : List (String × String)) (k v : String) : List (String × String) :=
  (k, v) :: m.filter (fun e => e.1 != k)

/-- Keys of a map are pairwise distinct. -/
def NodupKeys {β : Type} (m : List (String × β)) : Prop := (m.map Prod.fst).Nodup

instance nodupKeys_decidable {β : Type} (m : List (String × β)) : Decidable (NodupKeys m) :=
  inferInstanceAs (Decidable ((m.map Prod.fst).Nodup))

/-- Go string order `a <= b`: lexicographic on bytes, which on UTF-8 text is the lexicographic
order on code points. -/
def strLE (a b : String) : Prop := a.data ≤ b.data

instance strLE_decidable : DecidableRel strLE :=
  fun a b => inferInstanceAs (Decidable (a.data ≤ b.data))

instance strLE_isTotal : IsTotal String strLE := ⟨fun a b => le_total a.data b.data⟩

instance strLE_isTrans : IsTrans String strLE := ⟨fun _ _ _ h1 h2 => le_trans h1 h2⟩

/-- The type `url.Values` (`map[string][]string`). -/
abbrev Values := List (String × List String)

/-- The method `Values.Set`: `v[key] = []string{value}`. -/
def Values.Set (f : Values) (key value : String) : Values :=
  (key, [value]) :: f.filter (fun e => e.1 != key)

/-- The method `Values.Encode`: keys are collected, sorted with `slices.Sort`, and every
value of every key is written as `QueryEscape(k) + "=" + QueryEscape(v)`, with `&` written first
whenever the buffer is not empty. -/
def Values.Encode (queryEscape : String → String) (f : Values) : String :=
  let keys := (f.map Prod.fst).insertionSort strLE
  keys.foldl
    (fun buf k =>
      ((f.lookup k).getD []).foldl
        (fun buf v =>
          (if buf.length > 0 then buf ++ "&" else buf) ++ queryEscape k ++ "=" ++ queryEscape v)
        buf)
    ""

/-- One `key=value` item of an encoded form. -/
def formPart (queryEscape : String → String) (kv : String × String) : String :=
  queryEscape kv.1 ++ "=" ++ queryEscape kv.2

/-- The entries of a map listed in ascending key order. -/
def sortedByKey (q : List (String × String)) : List (String × String) :=
  ((q.map Prod.fst).insertionSort strLE).map (fun k => (k, (q.lookup k).getD ""))

/-- The request built by `http.NewRequest`; `body` is the string the body reader was made
from. -/
structure Request where
  method : String
  url : String
  header : List (String × String)
  body : String
  deriving DecidableEq, Repr

/-- The part of `http.Response` that `doSigned` looks at; `Body` is what `io.ReadAll` gives. -/
structure Response where
  StatusCode : Int
  Body : Except String String

/-- What `json.Unmarshal` leaves in `out`: the embedded `BaseResponse` and the payload. -/
structure Decoded (α : Type) where
  Success : Int
  Error : String
  Return : α
  deriving DecidableEq, Repr

/-- Library functions used by `doSigned`. -/
structure Env (α : Type) where
  queryEscape : String → String
  hmacSHA512Hex : String → String → String
  unmarshal : String → Except String (Decoded α)

/-- The constant `apiURL`. -/
def apiURL : String := "https://indodax.com/tapi"

/-- Lines 57-79 of `doSigned`: merge `method` and a fresh nonce into the parameters, copy them
into a form, encode it, sign the encoded string, and build the POST request. -/
def signedRequest {α : Type} (env : Env α) (c : IndodaxClient) (method : String)
    (params : List (String × String)) : IndodaxClient × Request :=
  let params1 := mapSet params "method" method
  let r := nextNonce c
  let params2 := mapSet params1 "nonce" (formatInt r.2)
  let form : Values := params2.foldl (fun f kv => Values.Set f kv.1 kv.2) []
  let body := Values.Encode env.queryEscape form
  let sig := env.hmacSHA512Hex r.1.config.APISecret body
  (r.1, ⟨"POST", apiURL,
    [("Content-Type", "application/x-www-form-urlencoded"), ("Key", r.1.config.APIKey),
      ("Sign", sig)],
    body⟩)

/-- The body reader `strings.NewReader(body)` of line 73, as the part of `body` not yet read.
A `Do` that sends the request reads `req.Body` to its end: `readToEnd` gives the bytes it gets and
the reader as it is left, at its end. Nothing in `doSigned` makes a new reader or rewinds it. -/
def readToEnd (unread : String) : String × String := (unread, "")

/-- Lines 81-94 of `doSigned`: the first `Do`, and one more `Do` of the same `req` after
sleeping 500 ms when the status is 429. Gives the requests handed to `Do` (the same `req` each
time), the time slept, either the response to read or the error returned early, and the bytes
that each `Do` can read from `req.Body`: the first `Do` reads the reader from its start, the
retry gets the reader as the first `Do` left it. -/
def sendWithRetry (req : Request) (Do : Nat → Except String Response) :
    List Request × Nat × Except String Response × List String :=
  let first := readToEnd req.body
  match Do 0 with
  | .error e => ([req], 0, .error ("do request: " ++ e), [first.1])
  | .ok resp =>
    if resp.StatusCode = 429 then
      let second := readToEnd first.2
      match Do 1 with
      | .error e => ([req, req], 500, .error ("retry request: " ++ e), [first.1, second.1])
      | .ok resp2 => ([req, req], 500, .ok resp2, [first.1, second.1])
    else ([req], 0, .ok resp, [first.1])

/-- Lines 96-115 of `doSigned`: read the body, reject every status other than 200, decode, and
turn `Success == 0` into an error. -/
def readEnvelope {α : Type} (env : Env α) (resp : Response) : Except String (Decoded α) :=
  match resp.Body with
  | .error e => .error ("read response: " ++ e)
  | .ok data =>
    if resp.StatusCode ≠ 200 then
      .error ("http " ++ formatInt resp.StatusCode ++ ": " ++ data)
    else
      match env.unmarshal data with
      | .error e => .error ("unmarshal: " ++ e)
      | .ok out =>
        if out.Success = 0 then .error ("api error: " ++ out.Error) else .ok out

/-- Everything observable of one `doSigned` call: the client afterwards, the requests handed to
`Do`, the time slept, the result, and the bytes each `Do` can read from the body reader of the
request it is handed. -/
structure Outcome (α : Type) where
  client : IndodaxClient
  sent : List Request
  sleptMs : Nat
  result : Except String (Decoded α)
  bodyRead : List String

/-- The method `doSigned`. -/
def doSigned {α : Type} (env : Env α) (c : IndodaxClient) (method : String)
    (params : List (String × String)) (Do : Nat → Except String Response) : Outcome α :=
  let b := signedRequest env c method params
  let s := sendWithRetry b.2 Do
  match s.2.2.1 with
  | .error e => ⟨b.1, s.1, s.2.1, .error e, s.2.2.2⟩
  | .ok resp => ⟨b.1, s.1, s.2.1, readEnvelope env resp, s.2.2.2⟩

/-! ### A sample environment for concrete runs -/

/-- A sample decoder: knows the two envelopes used in the examples. -/
def sampleUnmarshal (data : String) : Except String (Decoded Unit) :=
  if data = "\x7b\"success\":1\x7d" then .ok ⟨1, "", ()⟩
  else if data = "\x7b\"success\":0,\"error\":\"insufficient balance\"\x7d" then
    .ok ⟨0, "insufficient balance", ()⟩
  else .error "invalid character"

/-- A sample environment: identity escaping, a tagging signer, the sample decoder. -/
def sampleEnv : Env Unit :=
  ⟨fun s => s, fun secret body => "hmac(" ++ secret ++ "," ++ body ++ ")", sampleUnmarshal⟩

/-- A sample client. -/
def sampleClient : IndodaxClient := ⟨⟨"key", "secret"⟩, 1700000000000⟩

/-- A script answering 429 and then 200 with a success envelope. -/
def script429then200 : Nat → Except String Response
  | 0 => .ok ⟨429, .ok "slow down"⟩
  | _ => .ok ⟨200, .ok "\x7b\"success\":1\x7d"⟩

/-- Sample caller parameters of a `trade` call. -/
def sampleParams : List (String × String) := [("type", "buy"), ("pair", "btc_idr")]

/-- A script answering 201 with a success envelope. -/
def script201 : Nat → Except String Response :=
  fun _ => .ok ⟨201, .ok "\x7b\"success\":1\x7d"⟩

/-- A script answering 200 with the envelope of a refused order. -/
def script200refused : Nat → Except String Response :=
  fun _ => .ok ⟨200, .ok "\x7b\"success\":0,\"error\":\"insufficient balance\"\x7d"⟩

/-- A script answering 429 every time. -/
def scriptAlways429 : Nat → Except String Response :=
  fun _ => .ok ⟨429, .ok "slow down"⟩

/-! ## `float64` arithmetic

IEEE 754 binary64 with round-to-nearest-even, every operation rounded on its own (no fused
multiply-add, as the compiler emits it on amd64). A finite value is `±m * 2^e`; the operations
return it in the form the format stores: `m = 0, e = 0` for zero, `2^52 ≤ m < 2^53` with
`-1074 ≤ e ≤ 971` for a normal number, `m < 2^52` with `e = -1074` for a subnormal one. The sign
of a zero is not kept: it matters only to a division by zero, and the divisors of
`computeIndicator` are positive. -/

/-- A `float64` value. -/
inductive F64 where
  | fin (neg : Bool) (m : Nat) (e : Int) : F64
  | inf (neg : Bool) : F64
  | nan : F64
  deriving DecidableEq, Repr

namespace F64

/-- One step of the binary search for the position of the leading bit. -/
def log2Step (M L s : Nat) : Nat :=
  bif Nat.ble (Nat.pow 2 (Nat.add L s)) M then Nat.add L s else L

/-- The position of the leading bit of `M > 0`, for `M < 2^65536`. -/
def log2Floor (M : Nat) : Nat :=
  log2Step M (log2Step M (log2Step M (log2Step M (log2Step M (log2Step M (log2Step M
    (log2Step M (log2Step M (log2Step M (log2Step M (log2Step M (log2Step M (log2Step M
      (log2Step M (log2Step M 0 32768) 16384) 8192) 4096) 2048) 1024) 512) 256) 128) 64) 32)
        16) 8) 4) 2) 1

/-- The position of the leading bit of `M > 0`, looked for at `hint` and `hint + 1` first. -/
def log2Hint (M hint : Nat) : Nat :=
  bif Nat.ble (Nat.pow 2 hint) M && Nat.blt M (Nat.pow 2 (Nat.add hint 2)) then
    (bif Nat.ble (Nat.pow 2 (Nat.add hint 1)) M then Nat.add hint 1 else hint)
  else log2Floor M

/-- The test `a ≤ b` on integers. -/
def leInt (a b : Int) : Bool :=
  match Int.sub b a with
  | .ofNat _ => true
  | .negSucc _ => false

/-- The larger of two integers. -/
def maxInt (a b : Int) : Int := bif leInt a b then b else a

/-- Rounding to nearest, ties to even: `keep` with the discarded part `rem` out of `2 * half`. -/
def roundUp (keep rem half : Nat) : Nat :=
  bif Nat.blt half rem || (Nat.beq rem half && Nat.beq (Nat.mod keep 2) 1) then Nat.add keep 1
  else keep

/-- The value `±keep * 2^q` after rounding: a carry into `2^53` moves the exponent, a value of
`2^1024` or more is infinite. -/
def finish (neg : Bool) (keep : Nat) (q : Int) : F64 :=
  bif Nat.beq keep 0 then .fin false 0 0
  else bif Nat.beq keep 9007199254740992 then
    (bif leInt 971 q then .inf neg else .fin neg 4503599627370496 (Int.add q 1))
  else bif leInt 972 q then .inf neg
  else .fin neg keep q

/-- The `float64` nearest to the exact value `±M * 2^E` (ties to even); `hint` is where the
leading bit of `M` is looked for first and does not change the result. -/
def roundH (hint : Nat) (neg : Bool) (M : Nat) (E : Int) : F64 :=
  bif Nat.beq M 0 then .fin false 0 0
  else
    let q : Int := maxInt (Int.sub (Int.add (Int.ofNat (log2Hint M hint)) E) 52) (-1074)
    bif leInt q E then
      (bif leInt 972 q then .inf neg else .fin neg (Nat.shiftLeft M (Int.toNat (Int.sub E q))) q)
    else
      let s := Int.toNat (Int.sub q E)
      let keep := Nat.shiftRight M s
      finish neg (roundUp keep (Nat.sub M (Nat.shiftLeft keep s)) (Nat.pow 2 (Nat.sub s 1))) q

/-- The `float64` nearest to the exact value `±M * 2^E`. -/
def round (neg : Bool) (M : Nat) (E : Int) : F64 := roundH 52 neg M E

/-- The value `0`. -/
def zero : F64 := .fin false 0 0

/-- The value `1`. -/
def one : F64 := .fin false 4503599627370496 (-52)

/-- The value `0.5`. -/
def half : F64 := .fin false 4503599627370496 (-53)

/-- The value `4`. -/
def four : F64 := .fin false 4503599627370496 (-50)

/-- The value `-1`. -/
def negOne : F64 := .fin true 4503599627370496 (-52)

/-- The value `-0.5`. -/
def negHalf : F64 := .fin true 4503599627370496 (-53)

/-- The `float64` nearest to `±(n / d) * 2^E` for `n, d > 0`: the quotient is taken with three
bits more than the format keeps and a sticky bit for the remainder. -/
def roundQuot (neg : Bool) (n d : Nat) (E : Int) : F64 :=
  let t := Nat.add 56 (log2Hint d 52)
  let N := Nat.shiftLeft n t
  roundH t neg (Nat.add (Nat.mul 2 (Nat.div N d)) (bif Nat.beq (Nat.mod N d) 0 then 0 else 1))
    (Int.sub (Int.sub E (Int.ofNat t)) 1)

/-- The `float64` nearest to the fraction `n / d`: how a decimal constant or a decimal string
becomes a `float64`. -/
def ofRat (n : Int) (d : Nat) : F64 :=
  bif Nat.beq d 0 then .nan
  else roundQuot (leInt n (-1)) n.natAbs d 0

/-- The conversion `float64(n)` of an integer. -/
def ofInt (n : Int) : F64 := round (leInt n (-1)) n.natAbs 0

/-- The exact value of a finite `float64`. -/
def toRat : F64 → Option ℚ
  | .fin s m e => some ((bif s then -1 else 1) * (m : ℚ) * (2 : ℚ) ^ e)
  | .inf _ => none
  | .nan => none

/-- The operation `-x`; zero is kept without a sign. -/
def neg : F64 → F64
  | .fin s m e => bif Nat.beq m 0 then .fin false 0 0 else .fin (!s) m e
  | .inf b => .inf (!b)
  | .nan => .nan

/-- The sum of two aligned magnitudes with their signs, rounded. -/
def addMag (h : Nat) (s1 : Bool) (a : Nat) (s2 : Bool) (b : Nat) (e : Int) : F64 :=
  bif s1 == s2 then roundH h s1 (Nat.add a b) e
  else bif Nat.ble b a then roundH h s1 (Nat.sub a b) e
  else roundH h s2 (Nat.sub b a) e

/-- The operation `x + y`. -/
def add : F64 → F64 → F64
  | .nan, _ => .nan
  | _, .nan => .nan
  | .inf a, .inf b => bif a == b then .inf a else .nan
  | .inf a, .fin _ _ _ => .inf a
  | .fin _ _ _, .inf b => .inf b
  | .fin s1 m1 e1, .fin s2 m2 e2 =>
    bif Nat.beq m1 0 then .fin s2 m2 e2
    else bif Nat.beq m2 0 then .fin s1 m1 e1
    else
      bif leInt e1 e2 then
        addMag (Nat.add 52 (Int.toNat (Int.sub e2 e1))) s1 m1 s2
          (Nat.shiftLeft m2 (Int.toNat (Int.sub e2 e1))) e1
      else
        addMag (Nat.add 52 (Int.toNat (Int.sub e1 e2))) s1
          (Nat.shiftLeft m1 (Int.toNat (Int.sub e1 e2))) s2 m2 e2

/-- The operation `x - y`. -/
def sub (a b : F64) : F64 := add a (neg b)

/-- The operation `x * y`. -/
def mul : F64 → F64 → F64
  | .nan, _ => .nan
  | _, .nan => .nan
  | .inf a, .inf b => .inf (a != b)
  | .inf a, .fin s m _ => bif Nat.beq m 0 then .nan else .inf (a != s)
  | .fin s m _, .inf b => bif Nat.beq m 0 then .nan else .inf (s != b)
  | .fin s1 m1 e1, .fin s2 m2 e2 => roundH 104 (s1 != s2) (Nat.mul m1 m2) (Int.add e1 e2)

/-- The operation `x / y`; a zero divisor counts as `+0`. -/
def div : F64 → F64 → F64
  | .nan, _ => .nan
  | _, .nan => .nan
  | .inf _, .inf _ => .nan
  | .inf a, .fin s _ _ => .inf (a != s)
  | .fin _ _ _, .inf _ => zero
  | .fin s1 m1 e1, .fin s2 m2 e2 =>
    bif Nat.beq m2 0 then (bif Nat.beq m1 0 then .nan else .inf s1)
    else roundQuot (s1 != s2) m1 m2 (Int.sub e1 e2)

/-- The comparison of two aligned magnitudes of the same sign `s`. -/
def ltMag (a b : Nat) (s : Bool) : Bool := bif s then Nat.blt b a else Nat.blt a b

/-- The comparison `x < y`, false when either side is NaN. -/
def lt : F64 → F64 → Bool
  | .nan, _ => false
  | _, .nan => false
  | .inf a, .inf b => a && !b
  | .inf a, .fin _ _ _ => a
  | .fin _ _ _, .inf b => !b
  | .fin s1 m1 e1, .fin s2 m2 e2 =>
    bif Nat.beq m1 0 then (!s2 && !Nat.beq m2 0)
    else bif Nat.beq m2 0 then s1
    else bif s1 != s2 then s1
    else
      bif leInt e1 e2 then ltMag m1 (Nat.shiftLeft m2 (Int.toNat (Int.sub e2 e1))) s1
      else ltMag (Nat.shiftLeft m1 (Int.toNat (Int.sub e1 e2))) m2 s1

/-- The comparison `d >= 0`, false for NaN. -/
def ge0 : F64 → Bool
  | .fin s m _ => !s || Nat.beq m 0
  | .inf b => !b
  | .nan => false

/-- The function `math.Frexp` on a finite non-zero value: the fraction in `[0.5, 1)` with the
sign of the value, and the exponent. -/
def frexp (s : Bool) (m : Nat) (e : Int) : F64 × Int :=
  let L : Int := Int.ofNat (log2Hint m 52)
  (round s m (Int.sub (-1) L), Int.add (Int.add e L) 1)

/-- The function `math.Ldexp`: `a * 2^k`, rounded once. -/
def ldexp (a : F64) (k : Int) : F64 :=
  match a with
  | .fin s m e => round s m (Int.add e k)
  | x => x

/-- The loop of `math.Pow` over the bits of the integer exponent `i`, with `ans = a1 * 2^ae`
and the running square `x1 * 2^xe`; `fuel` is the 64 bits of an `int64`. -/
def powLoop : Nat → Nat → F64 → F64 → Int → Int → F64 × Int
  | 0, _, a1, _, ae, _ => (a1, ae)
  | fuel + 1, i, a1, x1, ae, xe =>
    bif Nat.beq i 0 then (a1, ae)
    else bif leInt xe (-4097) || leInt 4097 xe then (a1, Int.add ae xe)
    else
      bif lt (mul x1 x1) half then
        powLoop fuel (Nat.div i 2) (bif Nat.beq (Nat.mod i 2) 1 then mul a1 x1 else a1)
          (add (mul x1 x1) (mul x1 x1)) (bif Nat.beq (Nat.mod i 2) 1 then Int.add ae xe else ae)
          (Int.sub (Int.mul 2 xe) 1)
      else
        powLoop fuel (Nat.div i 2) (bif Nat.beq (Nat.mod i 2) 1 then mul a1 x1 else a1)
          (mul x1 x1) (bif Nat.beq (Nat.mod i 2) 1 then Int.add ae xe else ae)
          (Int.mul 2 xe)

/-- The call `math.Pow(x, float64(i))` for an index `i` (below `2^53`, so that `float64(i)` is
exact), as the portable Go implementation computes it: 1 for `i = 0` or `x = 1`, `x` for
`i = 1`, the special values, and otherwise `Frexp`, the squaring loop and `Ldexp`. -/
def pow (x : F64) (i : Nat) : F64 :=
  bif Nat.beq i 0 then one
  else
    match x with
    | .nan => .nan
    | .inf b => .inf (b && Nat.beq (Nat.mod i 2) 1)
    | .fin s m e =>
      bif (!s && Nat.beq m 4503599627370496 && leInt e (-52) && leInt (-52) e) then one
      else bif Nat.beq i 1 then x
      else bif Nat.beq m 0 then zero
      else
        let f := frexp s m e
        let r := powLoop 64 i one f.1 0 f.2
        ldexp r.1 r.2

end F64

/-! ## Data model of `internal/service/trend.go` -/

/-- The `Kline` struct of `internal/client/binance.go`. -/
structure Kline where
  OpenTime : Int
  Open : String
  High : String
  Low : String
  Close : String
  Volume : String
  CloseTime : Int
  deriving DecidableEq, Repr

/-- The decay factors `lambdas`, each decimal constant rounded to `float64`. -/
def lambdas : List F64 :=
  [F64.ofRat 5 10, F64.ofRat 757858283 1000000000, F64.ofRat 870550563 1000000000,
    F64.ofRat 933032992 1000000000, F64.ofRat 965936329 1000000000,
    F64.ofRat 982820599 1000000000]

/-- The normalisation factors `nfs`, each decimal constant rounded to `float64`. -/
def nfs : List F64 :=
  [F64.ofRat 10000 10000, F64.ofRat 10000 10000, F64.ofRat 10000 10000, F64.ofRat 10000 10000,
    F64.ofRat 10020 10000, F64.ofRat 10462 10000]

/-- The slice `weights` of `ewma` from index `i` on: `weights[i] = (1 - lam) * math.Pow(lam,
float64(i))`. -/
def weightsFrom (lam : F64) : Nat → Nat → List F64
  | _, 0 => []
  | i, n + 1 => F64.mul (F64.sub F64.one lam) (F64.pow lam i) :: weightsFrom lam (i + 1) n

/-- The function `ewma`: the first loop fills `weights` and adds them up into `sumW` from the
first on, `norm` is `1 / sumW`, the second loop adds `weights[i] * price * nf` into `total` from
the first on, and the result is `norm * total`. -/
def ewma (prices : List F64) (lam nf : F64) : F64 :=
  let weights := weightsFrom lam 0 prices.length
  let sumW := weights.foldl F64.add F64.zero
  let norm := F64.div F64.one sumW
  let total := (List.zip weights prices).foldl
    (fun t wp => F64.add t (F64.mul (F64.mul wp.1 wp.2) nf)) F64.zero
  F64.mul norm total

/-- The slice `mas` of `computeIndicator`. -/
def movingAverages (closes : List F64) : List F64 :=
  [ewma closes (lambdas.getD 0 F64.zero) (nfs.getD 0 F64.zero),
    ewma closes (lambdas.getD 1 F64.zero) (nfs.getD 1 F64.zero),
    ewma closes (lambdas.getD 2 F64.zero) (nfs.getD 2 F64.zero),
    ewma closes (lambdas.getD 3 F64.zero) (nfs.getD 3 F64.zero),
    ewma closes (lambdas.getD 4 F64.zero) (nfs.getD 4 F64.zero),
    ewma closes (lambdas.getD 5 F64.zero) (nfs.getD 5 F64.zero)]

/-- The slice `diffs` of `computeIndicator`. -/
def differences (mas : List F64) : List F64 :=
  [F64.sub (mas.getD 0 F64.zero) (mas.getD 2 F64.zero),
    F64.sub (mas.getD 1 F64.zero) (mas.getD 3 F64.zero),
    F64.sub (mas.getD 2 F64.zero) (mas.getD 4 F64.zero),
    F64.sub (mas.getD 3 F64.zero) (mas.getD 5 F64.zero)]

/-- One pass of the loop over `diffs`: `sumSigns += 1` when the test `d >= 0` holds,
`sumSigns -= 1` otherwise. -/
def signStep (s : F64) (b : Bool) : F64 :=
  bif b then F64.add s F64.one else F64.sub s F64.one

/-- The loop over `diffs` of `computeIndicator`. -/
def sumSigns (diffs : List F64) : F64 :=
  diffs.foldl (fun s d => signStep s (F64.ge0 d)) F64.zero

/-- The value `sumSigns / 4` when the four tests `d >= 0` come out as `b0, b1, b2, b3`. -/
def scoreOfSigns (b0 b1 b2 b3 : Bool) : F64 :=
  F64.div (signStep (signStep (signStep (signStep F64.zero b0) b1) b2) b3) F64.four

/-- The score for `k` tests out of four that hold: `(2 * k - 4) / 4`. -/
def quarters : Nat → F64
  | 0 => F64.negOne
  | 1 => F64.negHalf
  | 2 => F64.zero
  | 3 => F64.half
  | _ => F64.one

/-- The sign that the loop of `computeIndicator` counts for a difference: `+1` if `d >= 0`,
`-1` otherwise (also for NaN). -/
def signOf (d : F64) : ℚ := bif F64.ge0 d then 1 else -1

/-- The closes of `computeIndicator`: `closes[i]` is the parsed close of
`klines[len(klines)-1-i]`, the most recent candle first; the error of `strconv.ParseFloat` is
dropped, so `parseFloat` is the value it returns. -/
def closesOf (parseFloat : String → F64) (klines : List Kline) : List F64 :=
  klines.reverse.map (fun k => parseFloat k.Close)

/-- The function `computeIndicator`, given the result of `client.FetchKlines(symbol)`. -/
def computeIndicator (parseFloat : String → F64) (fetched : Except String (List Kline)) :
    Except String F64 :=
  match fetched with
  | .error err => .error err
  | .ok klines =>
    if klines.length < 180 then .ok F64.zero
    else
      .ok (F64.div (sumSigns (differences (movingAverages (closesOf parseFloat klines))))
        F64.four)

/-- Reading a string of decimal digits with at most one point: the digits as a number and the
count of digits after the point. -/
def parseDecimal : List Char → Nat → Nat → Bool → Option (Nat × Nat)
  | [], v, k, _ => some (v, k)
  | c :: cs, v, k, dot =>
    if c.isDigit then
      parseDecimal cs (v * 10 + (c.toNat - 48)) (if dot then k + 1 else k) dot
    else if c = '.' ∧ dot = false then parseDecimal cs v k true
    else none

/-- A sample `ParseFloat`: on a string of decimal digits with at most one point it is the
nearest `float64`, as `strconv.ParseFloat` returns it; other strings are given 0 and are not
used. -/
def sampleParseFloat (s : String) : F64 :=
  match parseDecimal s.data 0 0 false with
  | some (v, k) => F64.ofRat (Int.ofNat v) (10 ^ k)
  | none => F64.zero

/-- A candle of which only the close is filled in. -/
def klineWithClose (close : String) : Kline := ⟨0, "", "", "", close, "", 0⟩

/-- A rising series of 200 candles: closes 100000, 100001, ..., 100199. -/
def risingKlines : List Kline :=
  (List.range 200).map (fun t => klineWithClose (Nat.repr (100000 + t)))

/-- A flat series of 180 candles, every close 100. -/
def flatKlines : List Kline := List.replicate 180 (klineWithClose "100")

/-- A series of 180 candles, every close 0. -/
def zeroKlines : List Kline := List.replicate 180 (klineWithClose "0")

/-- A short series of 50 candles. -/
def shortKlines : List Kline := List.replicate 50 (klineWithClose "100")

/-- A falling series of 200 candles: closes 100199, 100198, ..., 100000. -/
def fallingKlines : List Kline :=
  (List.range 200).map (fun t => klineWithClose (Nat.repr (100199 - t)))

/-- A rising series of 200 candles of large closes: 7872367763781740, ..., 7872367763781939,
each a `float64` exactly. -/
def largeRisingKlines : List Kline :=
  (List.range 200).map (fun t => klineWithClose (Nat.repr (7872367763781740 + t)))

/-- Each value is less than the next one, by the `float64` comparison `<`. -/
def strictlyRising : List F64 → Bool
  | a :: b :: rest => F64.lt a b && strictlyRising (b :: rest)
  | _ => true

/-! ## The formula of the spec in exact arithmetic -/

/-- Spec-side: the decay factors as exact decimals. -/
def lambdasExact : List ℚ :=
  [0.5, 0.757858283, 0.870550563, 0.933032992, 0.965936329, 0.982820599]

/-- Spec-side: the normalisation factors as exact decimals. -/
def nfsExact : List ℚ := [1.0000, 1.0000, 1.0000, 1.0000, 1.0020, 1.0462]

/-- Spec-side: the moving average of spec section 4.4 in exact arithmetic,
`(Σ w_i * price_i * nf) / (Σ w_i)` with `w_i = (1 - lam) * lam^i`. -/
def ewmaExact (prices : List ℚ) (lam nf : ℚ) : ℚ :=
  let weights := (List.range prices.length).map (fun i => (1 - lam) * lam ^ i)
  let sumW := weights.sum
  let norm := 1 / sumW
  let total := (prices.enum.map (fun ip => weights.getD ip.1 0 * ip.2 * nf)).sum
  norm * total

/-- Spec-side: the six moving averages in exact arithmetic. -/
def movingAveragesExact (closes : List ℚ) : List ℚ :=
  [ewmaExact closes (lambdasExact.getD 0 0) (nfsExact.getD 0 0),
    ewmaExact closes (lambdasExact.getD 1 0) (nfsExact.getD 1 0),
    ewmaExact closes (lambdasExact.getD 2 0) (nfsExact.getD 2 0),
    ewmaExact closes (lambdasExact.getD 3 0) (nfsExact.getD 3 0),
    ewmaExact closes (lambdasExact.getD 4 0) (nfsExact.getD 4 0),
    ewmaExact closes (lambdasExact.getD 5 0) (nfsExact.getD 5 0)]

/-- Spec-side: the four differences in exact arithmetic. -/
def differencesExact (mas : List ℚ) : List ℚ :=
  [mas.getD 0 0 - mas.getD 2 0,
    mas.getD 1 0 - mas.getD 3 0,
    mas.getD 2 0 - mas.getD 4 0,
    mas.getD 3 0 - mas.getD 5 0]

/-- Spec-side: the sign of one difference, `+1` if `d >= 0`, `-1` otherwise. -/
def signOfExact (d : ℚ) : ℚ := if d ≥ 0 then 1 else -1

/-- Spec-side: the sum of the four signs. -/
def sumSignsExact (diffs : List ℚ) : ℚ :=
  diffs.foldl (fun s d => if d ≥ 0 then s + 1 else s - 1) 0

/-- Spec-side: the closes as exact numbers, the most recent candle first. -/
def closesOfExact (parseReal : String → ℚ) (klines : List Kline) : List ℚ :=
  klines.reverse.map (fun k => parseReal k.Close)

/-- Spec-side: the score of spec section 4.4 computed in exact arithmetic. It is the formula
that `computeIndicator` evaluates in `float64`, kept to compare the two. -/
def computeIndicatorExact (parseReal : String → ℚ) (fetched : Except String (List Kline)) :
    Except String ℚ :=
  match fetched with
  | .error err => .error err
  | .ok klines =>
    if klines.length < 180 then .ok 0
    else
      .ok (sumSignsExact (differencesExact (movingAveragesExact (closesOfExact parseReal klines)))
        / 4)

/-- Value of a string of decimal digits. -/
def parseDigits (s : String) : Nat :=
  s.data.foldl (fun acc ch => acc * 10 + (ch.toNat - 48)) 0

/-- Spec-side: the exact value of a string of decimal digits, 0 for anything else. -/
def sampleParseExact (s : String) : ℚ :=
  if s.data.all Char.isDigit then (parseDigits s : ℚ) else 0

/-! ## Data model of `internal/client/binance.go` -/

/-- A JSON value as `encoding/json` hands it over in an `interface{}`: `nil`, `bool`,
`float64`, `string`, `[]interface{}` or `map[string]interface{}`. -/
inductive JSON where
  | null : JSON
  | bool (b : Bool) : JSON
  | number (x : ℚ) : JSON
  | string (s : String) : JSON
  | array (xs : List JSON) : JSON
  | object (kvs : List (String × JSON)) : JSON

/-- How a Go call ends: it returns a value, returns an error, or panics. -/
inductive Run (α : Type) where
  | ok (a : α) : Run α
  | error (e : String) : Run α
  | panic (msg : String) : Run α

/-- Sequencing of Go evaluation: an error or a panic of the first step ends the run. -/
def Run.andThen {α β : Type} (r : Run α) (f : α → Run β) : Run β :=
  match r with
  | .ok a => f a
  | .error e => .error e
  | .panic msg => .panic msg

/-- The name `encoding/json` gives to the kind of a JSON value in its type errors. -/
def JSON.kind : JSON → String
  | .null => "null"
  | .bool _ => "bool"
  | .number _ => "number"
  | .string _ => "string"
  | .array _ => "array"
  | .object _ => "object"

/-- The name of the Go type that `encoding/json` stores in an `interface{}` for a JSON value, as
a failed type assertion prints it. -/
def JSON.dynType : JSON → String
  | .null => "nil"
  | .bool _ => "bool"
  | .number _ => "float64"
  | .string _ => "string"
  | .array _ => "[]interface \x7b\x7d"
  | .object _ => "map[string]interface \x7b\x7d"

/-- Decoding one element of the outer array into a `[]interface{}`: an array gives its elements,
`null` gives the nil slice, anything else is a type error. -/
def decodeEntry : JSON → Except String (List JSON)
  | .array ys => .ok ys
  | .null => .ok []
  | v => .error ("json: cannot unmarshal " ++ v.kind ++ " into Go value of type []interface \x7b\x7d")

/-- Decoding the elements of the outer array, the first type error being the one reported. -/
def decodeEntries : List JSON → Except String (List (List JSON))
  | [] => .ok []
  | x :: xs =>
    match decodeEntry x, decodeEntries xs with
    | .error e, _ => .error e
    | .ok _, .error e => .error e
    | .ok ys, .ok rest => .ok (ys :: rest)

/-- The call `json.NewDecoder(resp.Body).Decode(&raw)` with `raw [][]interface{}`, given what
reading the first JSON value of the body gives (a syntax or read error, or the value): an array
is decoded element by element, `null` leaves `raw` nil without error, any other value is a type
error. -/
def decodeRaw (body : Except String JSON) : Except String (List (List JSON)) :=
  match body with
  | .error e => .error e
  | .ok (.array xs) => decodeEntries xs
  | .ok .null => .ok []
  | .ok v =>
    .error ("json: cannot unmarshal " ++ v.kind ++ " into Go value of type [][]interface \x7b\x7d")

/-- The expression `entry[i].(float64)`: the index panics when out of range, the single-value
type assertion panics on any other dynamic type. -/
def assertFloat64 (entry : List JSON) (i : Nat) : Run ℚ :=
  match entry.get? i with
  | none =>
    .panic ("runtime error: index out of range [" ++ Nat.repr i ++ "] with length " ++
      Nat.repr entry.length)
  | some (.number x) => .ok x
  | some v => .panic ("interface conversion: interface \x7b\x7d is " ++ v.dynType ++ ", not float64")

/-- The expression `entry[i].(string)`. -/
def assertString (entry : List JSON) (i : Nat) : Run String :=
  match entry.get? i with
  | none =>
    .panic ("runtime error: index out of range [" ++ Nat.repr i ++ "] with length " ++
      Nat.repr entry.length)
  | some (.string s) => .ok s
  | some v => .panic ("interface conversion: interface \x7b\x7d is " ++ v.dynType ++ ", not string")

/-- The conversion `int64(x)` of a `float64`: truncation toward zero (for values outside the
`int64` range Go leaves the result to the implementation; the truncated value is kept here). -/
def truncToInt (x : ℚ) : Int := if 0 ≤ x then ⌊x⌋ else ⌈x⌉

/-- The composite literal `Kline{...}` of the loop body of `FetchKlines`, its fields evaluated
in order. -/
def klineOfEntry (entry : List JSON) : Run Kline :=
  (assertFloat64 entry 0).andThen fun openTime =>
  (assertString entry 1).andThen fun open_ =>
  (assertString entry 2).andThen fun high =>
  (assertString entry 3).andThen fun low =>
  (assertString entry 4).andThen fun close =>
  (assertString entry 5).andThen fun volume =>
  (assertFloat64 entry 6).andThen fun closeTime =>
  .ok ⟨truncToInt openTime, open_, high, low, close, volume, truncToInt closeTime⟩

/-- The loop `for i, entry := range raw` of `FetchKlines`. -/
def klinesOfRaw : List (List JSON) → Run (List Kline)
  | [] => .ok []
  | entry :: rest =>
    (klineOfEntry entry).andThen fun k =>
    (klinesOfRaw rest).andThen fun ks => .ok (k :: ks)

/-- The function `FetchKlines`, given the outcome of `client.Do(req)`: a network error, or a
response whose body reads as a JSON value or fails to. The status code is not looked at. -/
def FetchKlines (resp : Except String (Except String JSON)) : Run (List Kline) :=
  match resp with
  | .error err => .error err
  | .ok body =>
    match decodeRaw body with
    | .error err => .error err
    | .ok raw => klinesOfRaw raw

/-- A candle tuple as the market-data endpoint sends it (twelve positions, seven used). -/
def sampleTuple : JSON :=
  .array [.number 1499040000000, .string "0.01634790", .string "0.80000000",
    .string "0.01575800", .string "0.01577100", .string "148976.11427815",
    .number 1499644799999, .string "2434.19055334", .number 308, .string "1756.87402397",
    .string "28.46694368", .string "0"]

/-- A tuple with two elements only. -/
def shortTuple : JSON := .array [.number 1499040000000, .string "0.01634790"]

/-- A tuple of seven elements whose close (position 4) is a number, not a string. -/
def numericCloseTuple : JSON :=
  .array [.number 1499040000000, .string "0.01634790", .string "0.80000000",
    .string "0.01575800", .number 0.015771, .string "148976.11427815", .number 1499644799999]

/-! ## Data model of `UpdateTrends` -/

/-- An argument of a SQL statement: a score or the timestamp. -/
inductive SQLArg where
  | float (x : F64) : SQLArg
  | time (t : Int) : SQLArg
  deriving DecidableEq

/-- The calls `UpdateTrends` makes on the database. `ExecInsert args` is the statement
`INSERT INTO trend_indicator (bitcoin_trend, ethereum_trend, solana_trend, timestamp)
VALUES ($1,$2,$3,$4)` with `args` bound to `$1, $2, ...` by position. -/
inductive DBCall where
  | Begin : DBCall
  | ExecCreateTable : DBCall
  | ExecInsert (args : List SQLArg) : DBCall
  | Rollback : DBCall
  | Commit : DBCall
  deriving DecidableEq

/-- The errors the database answers with, `none` for success. -/
structure DBScript where
  beginErr : Option String
  createErr : Option String
  insertErr : Option String
  commitErr : Option String

/-- The map literal `symbols`, in the order it is written. -/
def symbols : List (String × String) :=
  [("bitcoin", "BTCUSDT"), ("ethereum", "ETHUSDT"), ("solana", "SOLUSDT")]

/-- The loop `for _, sym := range symbols` over the entries in iteration order: each indicator
is appended to `vals`, the first error ends the loop. -/
def collectIndicators (parseFloat : String → F64) (fetch : String → Except String (List Kline)) :
    List (String × String) → List SQLArg → Except String (List SQLArg)
  | [], vals => .ok vals
  | e :: rest, vals =>
    match computeIndicator parseFloat (fetch e.2) with
    | .error err => .error err
    | .ok ind => collectIndicators parseFloat fetch rest (vals ++ [.float ind])

/-- The function `UpdateTrends`. `now` is `time.Now()`, `order` the entries of `symbols` in the
order `range` happens to yield them, `fetch sym` what `client.FetchKlines(sym)` returns. Gives
the database calls made and the error returned. -/
def UpdateTrends (now : Int) (order : List (String × String)) (parseFloat : String → F64)
    (fetch : String → Except String (List Kline)) (db : DBScript) :
    List DBCall × Option String :=
  match db.beginErr with
  | some err => ([.Begin], some err)
  | none =>
    match db.createErr with
    | some err => ([.Begin, .ExecCreateTable, .Rollback], some err)
    | none =>
      match collectIndicators parseFloat fetch order [] with
      | .error err => ([.Begin, .ExecCreateTable, .Rollback], some err)
      | .ok vals =>
        match db.insertErr with
        | some err =>
          ([.Begin, .ExecCreateTable, .ExecInsert (vals ++ [.time now]), .Rollback], some err)
        | none =>
          ([.Begin, .ExecCreateTable, .ExecInsert (vals ++ [.time now]), .Commit],
            db.commitErr)

/-- The value bound to the column at position `i` of the row `UpdateTrends` inserts
(0 `bitcoin_trend`, 1 `ethereum_trend`, 2 `solana_trend`, 3 `timestamp`). -/
def insertedColumn (calls : List DBCall) (i : Nat) : Option SQLArg :=
  match calls with
  | [] => none
  | .ExecInsert args :: _ => args.get? i
  | _ :: rest => insertedColumn rest i

/-- A database on which every call succeeds. -/
def healthyDB : DBScript := ⟨none, none, none, none⟩

/-- A sample fetch: 50 candles for BTCUSDT and SOLUSDT, 180 closes of 0 for ETHUSDT. -/
def sampleFetch (sym : String) : Except String (List Kline) :=
  if sym = "ETHUSDT" then .ok zeroKlines else .ok shortKlines

/-! ## Theorems: the nonce generator -/

theorem wrapInt64_of_inRange (x : Int) (h1 : minInt64 ≤ x) (h2 : x ≤ maxInt64) :
    wrapInt64 x = x := by
  unfold wrapInt64
  unfold minInt64 at h1
  unfold maxInt64 at h2
  have h : (x + 2 ^ 63) % 2 ^ 64 = x + 2 ^ 63 := by
    apply Int.emod_eq_of_lt <;> omega
  omega

theorem nextNonce_of_lt_max (c : IndodaxClient) (h1 : minInt64 ≤ c.nonce)
    (h2 : c.nonce < maxInt64) :
    nextNonce c = (⟨c.config, c.nonce + 1⟩, c.nonce + 1) := by
  have h : wrapInt64 (c.nonce + 1) = c.nonce + 1 :=
    wrapInt64_of_inRange _ (by omega) (by omega)
  simp [nextNonce, h]

theorem nextNonceN_of_inRange (N : Nat) :
    ∀ c : IndodaxClient, minInt64 ≤ c.nonce → c.nonce + N ≤ maxInt64 →
      (nextNonceN N c).2 = (List.range N).map (fun i : Nat => c.nonce + 1 + (i : Int)) ∧
      (nextNonceN N c).1 = ⟨c.config, c.nonce + N⟩ := by
  induction N with
  | zero => intro c _ _; simp [nextNonceN]
  | succ k ih =>
    intro c h1 h2
    have hstep := nextNonce_of_lt_max c h1 (by push_cast at h2; omega)
    have hrec := ih ⟨c.config, c.nonce + 1⟩ (by simp only; omega)
      (by simp only; push_cast at h2; omega)
    simp only [nextNonceN, hstep]
    refine ⟨?_, ?_⟩
    · rw [hrec.1, List.range_succ_eq_map]
      simp only [List.map_cons, List.map_map]
      congr 1
      · simp
      · apply List.map_congr_left
        intro i _
        simp only [Function.comp, Nat.succ_eq_add_one]
        push_cast
        ring
    · rw [hrec.2]
      simp only [IndodaxClient.mk.injEq, true_and]
      push_cast
      ring

/-- C2 (as amended): while the int64 counter does not pass its maximum, `N` successive
`nextNonce` calls on a client whose counter is `n0` return exactly `n0+1, ..., n0+N` in that
order, leave the counter at `n0+N`, and every returned value is strictly greater than every value
returned before it. -/
theorem nextNonceN_contiguous (c : IndodaxClient) (N : Nat)
    (hlo : minInt64 ≤ c.nonce) (hhi : c.nonce + N ≤ maxInt64) :
    (nextNonceN N c).2 = (List.range N).map (fun i : Nat => c.nonce + 1 + (i : Int)) ∧
    (nextNonceN N c).1.nonce = c.nonce + N ∧
    (nextNonceN N c).1.config = c.config ∧
    (nextNonceN N c).2.Pairwise (fun a b => a < b) := by
  obtain ⟨h1, h2⟩ := nextNonceN_of_inRange N c hlo hhi
  refine ⟨h1, by rw [h2], by rw [h2], ?_⟩
  rw [h1, List.pairwise_map]
  apply (List.pairwise_lt_range N).imp
  intro a b hab
  have : (a : Int) < (b : Int) := by exact_mod_cast hab
  omega

/-- Witness of `nextNonceN_contiguous`: three calls from a counter of 1700000000000. -/
theorem nextNonceN_contiguous_witness :
    (nextNonceN 3 sampleClient).2 =
      (List.range 3).map (fun i : Nat => sampleClient.nonce + 1 + (i : Int)) ∧
    (nextNonceN 3 sampleClient).1.nonce = sampleClient.nonce + (3 : Nat) ∧
    (nextNonceN 3 sampleClient).1.config = sampleClient.config ∧
    (nextNonceN 3 sampleClient).2.Pairwise (fun a b => a < b) :=
  nextNonceN_contiguous sampleClient 3 (by decide) (by decide)

/-- C2 (counterexample): from a counter of 2^63 - 2 the second call wraps: the two calls return
2^63 - 1 and then -2^63, which is neither `n0 + 2` nor greater than the value returned before. -/
theorem nextNonceN_wraps_at_maxInt64 :
    (nextNonceN 2 ⟨⟨"key", "secret"⟩, 9223372036854775806⟩).2 =
      [9223372036854775807, -9223372036854775808] ∧
    (nextNonceN 2 ⟨⟨"key", "secret"⟩, 9223372036854775806⟩).2 ≠
      [9223372036854775806 + 1, 9223372036854775806 + 2] ∧
    ¬ (nextNonceN 2 ⟨⟨"key", "secret"⟩, 9223372036854775806⟩).2.Pairwise (fun a b => a < b) := by
  have h : (nextNonceN 2 ⟨⟨"key", "secret"⟩, 9223372036854775806⟩).2 =
      [9223372036854775807, -9223372036854775808] := by
    simp [nextNonceN, nextNonce, wrapInt64]
  rw [h]
  refine ⟨rfl, by decide, by decide⟩

/-! ## Theorems: dispatch -/

theorem doSigned_client {α : Type} (env : Env α) (c : IndodaxClient) (method : String)
    (params : List (String × String)) (Do : Nat → Except String Response) :
    (doSigned env c method params Do).client = (nextNonce c).1 := by
  simp only [doSigned]
  cases (sendWithRetry (signedRequest env c method params).2 Do).2.2.1 <;> rfl

theorem doSigned_sent {α : Type} (env : Env α) (c : IndodaxClient) (method : String)
    (params : List (String × String)) (Do : Nat → Except String Response) :
    (doSigned env c method params Do).sent =
      (sendWithRetry (signedRequest env c method params).2 Do).1 := by
  simp only [doSigned]
  cases (sendWithRetry (signedRequest env c method params).2 Do).2.2.1 <;> rfl

theorem doSigned_sleptMs {α : Type} (env : Env α) (c : IndodaxClient) (method : String)
    (params : List (String × String)) (Do : Nat → Except String Response) :
    (doSigned env c method params Do).sleptMs =
      (sendWithRetry (signedRequest env c method params).2 Do).2.1 := by
  simp only [doSigned]
  cases (sendWithRetry (signedRequest env c method params).2 Do).2.2.1 <;> rfl

theorem doSigned_result {α : Type} (env : Env α) (c : IndodaxClient) (method : String)
    (params : List (String × String)) (Do : Nat → Except String Response) :
    (doSigned env c method params Do).result =
      match (sendWithRetry (signedRequest env c method params).2 Do).2.2.1 with
      | .error e => .error e
      | .ok resp => readEnvelope env resp := by
  simp only [doSigned]
  cases (sendWithRetry (signedRequest env c method params).2 Do).2.2.1 <;> rfl

theorem doSigned_bodyRead {α : Type} (env : Env α) (c : IndodaxClient) (method : String)
    (params : List (String × String)) (Do : Nat → Except String Response) :
    (doSigned env c method params Do).bodyRead =
      (sendWithRetry (signedRequest env c method params).2 Do).2.2.2 := by
  simp only [doSigned]
  cases (sendWithRetry (signedRequest env c method params).2 Do).2.2.1 <;> rfl

theorem sendWithRetry_first_429 (req : Request) (Do : Nat → Except String Response)
    (r1 : Response) (h0 : Do 0 = .ok r1) (h429 : r1.StatusCode = 429) :
    sendWithRetry req Do =
      ([req, req], 500,
        (match Do 1 with
        | .error e => .error ("retry request: " ++ e)
        | .ok r2 => .ok r2), [req.body, ""]) := by
  unfold sendWithRetry
  rw [h0]
  simp only [h429, if_true]
  cases Do 1 <;> rfl

theorem sendWithRetry_first_other (req : Request) (Do : Nat → Except String Response)
    (r1 : Response) (h0 : Do 0 = .ok r1) (h429 : r1.StatusCode ≠ 429) :
    sendWithRetry req Do = ([req], 0, .ok r1, [req.body]) := by
  unfold sendWithRetry
  rw [h0]
  simp only [h429, if_false, readToEnd]

theorem sendWithRetry_congr (req : Request) (Do Do2 : Nat → Except String Response)
    (h0 : Do2 0 = Do 0) (h1 : Do2 1 = Do 1) :
    sendWithRetry req Do2 = sendWithRetry req Do := by
  unfold sendWithRetry
  rw [h0, h1]

theorem readEnvelope_status {α : Type} (env : Env α) (resp : Response) (data : String)
    (hbody : resp.Body = .ok data) (hs : resp.StatusCode ≠ 200) :
    readEnvelope env resp = .error ("http " ++ formatInt resp.StatusCode ++ ": " ++ data) := by
  unfold readEnvelope
  rw [hbody]
  simp only [hs, ne_eq, not_false_eq_true, if_true]

theorem readEnvelope_200 {α : Type} (env : Env α) (resp : Response) (data : String)
    (hbody : resp.Body = .ok data) (hs : resp.StatusCode = 200) :
    readEnvelope env resp =
      match env.unmarshal data with
      | .error e => .error ("unmarshal: " ++ e)
      | .ok out => if out.Success = 0 then .error ("api error: " ++ out.Error) else .ok out := by
  unfold readEnvelope
  rw [hbody]
  simp only [hs, ne_eq, not_true_eq_false, if_false]

/-- The result of a call whose final response (the first one, or the second one after a 429)
is `resp`. -/
theorem doSigned_result_of_final {α : Type} (env : Env α) (c : IndodaxClient) (method : String)
    (params : List (String × String)) (Do : Nat → Except String Response) (resp : Response)
    (hfinal : (Do 0 = .ok resp ∧ resp.StatusCode ≠ 429) ∨
      (∃ r1, Do 0 = .ok r1 ∧ r1.StatusCode = 429 ∧ Do 1 = .ok resp)) :
    (doSigned env c method params Do).result = readEnvelope env resp := by
  rw [doSigned_result]
  rcases hfinal with ⟨h0, hs⟩ | ⟨r1, h0, hs, h1⟩
  · rw [sendWithRetry_first_other _ _ _ h0 hs]
  · rw [sendWithRetry_first_429 _ _ _ h0 hs, h1]

/-- C1: when the first response has status 429, `doSigned` sends the request exactly twice
(one retry, after 500 ms, and no response beyond the second is consulted), and its result is a
function of the second response alone: a second response of 200 with a `success = 1` envelope gives
the decoded second body and no error, a second response of 429 gives an error, which is
`http 429: <body>`, with no further request. When the first response is not 429, exactly one
request is sent. -/
theorem doSigned_retries_exactly_once {α : Type} (env : Env α) (c : IndodaxClient)
    (method : String) (params : List (String × String)) (Do : Nat → Except String Response) :
    (∀ r1, Do 0 = .ok r1 → r1.StatusCode = 429 →
      (doSigned env c method params Do).sent =
        [(signedRequest env c method params).2, (signedRequest env c method params).2] ∧
      (doSigned env c method params Do).sleptMs = 500 ∧
      (doSigned env c method params Do).result =
        (match Do 1 with
          | .error e => .error ("retry request: " ++ e)
          | .ok r2 => readEnvelope env r2) ∧
      (∀ Do2 : Nat → Except String Response, Do2 0 = Do 0 → Do2 1 = Do 1 →
        (doSigned env c method params Do2).sent = (doSigned env c method params Do).sent ∧
        (doSigned env c method params Do2).result = (doSigned env c method params Do).result) ∧
      (∀ data out, Do 1 = .ok ⟨200, .ok data⟩ → env.unmarshal data = .ok out →
        out.Success = 1 → (doSigned env c method params Do).result = .ok out) ∧
      (∀ r2, Do 1 = .ok r2 → r2.StatusCode = 429 →
        (∃ e, (doSigned env c method params Do).result = .error e) ∧
        (∀ data, r2.Body = .ok data →
          (doSigned env c method params Do).result = .error ("http 429: " ++ data)))) ∧
    (∀ r1, Do 0 = .ok r1 → r1.StatusCode ≠ 429 →
      (doSigned env c method params Do).sent = [(signedRequest env c method params).2] ∧
      (doSigned env c method params Do).sleptMs = 0) := by
  constructor
  · intro r1 h0 h429
    have hs := sendWithRetry_first_429 (signedRequest env c method params).2 Do r1 h0 h429
    have hres : (doSigned env c method params Do).result =
        (match Do 1 with
          | .error e => .error ("retry request: " ++ e)
          | .ok r2 => readEnvelope env r2) := by
      rw [doSigned_result, hs]
      cases Do 1 <;> rfl
    refine ⟨by rw [doSigned_sent, hs], by rw [doSigned_sleptMs, hs], hres, ?_, ?_, ?_⟩
    · intro Do2 e0 e1
      rw [doSigned_sent, doSigned_sent, doSigned_result, doSigned_result,
        sendWithRetry_congr _ Do Do2 e0 e1]
      exact ⟨rfl, rfl⟩
    · intro data out h1 hu hsucc
      rw [hres, h1]
      simp only
      rw [readEnvelope_200 env _ data rfl rfl, hu]
      simp [hsucc]
    · intro r2 h1 hs2
      rw [hres, h1]
      simp only
      constructor
      · cases hb : r2.Body with
        | error e => exact ⟨_, by unfold readEnvelope; rw [hb]⟩
        | ok data =>
          exact ⟨_, readEnvelope_status env r2 data hb (by rw [hs2]; decide)⟩
      · intro data hb
        rw [readEnvelope_status env r2 data hb (by rw [hs2]; decide), hs2]
        rfl
  · intro r1 h0 hne
    have hs := sendWithRetry_first_other (signedRequest env c method params).2 Do r1 h0 hne
    exact ⟨by rw [doSigned_sent, hs], by rw [doSigned_sleptMs, hs]⟩

/-- Witness of `doSigned_retries_exactly_once`: the responses 429 and then 200. -/
theorem doSigned_retries_exactly_once_witness :
    (doSigned sampleEnv sampleClient "getInfo" [] script429then200).sent.length = 2 ∧
    (doSigned sampleEnv sampleClient "getInfo" [] script429then200).result =
      .ok ⟨1, "", ()⟩ := by
  have h := (doSigned_retries_exactly_once sampleEnv sampleClient "getInfo" []
    script429then200).1 ⟨429, .ok "slow down"⟩ rfl rfl
  refine ⟨by rw [h.1]; rfl, h.2.2.2.2.1 _ _ rfl rfl rfl⟩

/-- C3 (counterexample): a final response of status 201, inside the 2xx range, with a readable
success envelope makes `doSigned` fail with the status error `http 201: <body>`. -/
theorem doSigned_status_201_is_error :
    (doSigned sampleEnv sampleClient "getInfo" [] script201).result =
      .error "http 201: \x7b\"success\":1\x7d" ∧
    (doSigned sampleEnv sampleClient "getInfo" [] script201).sent.length = 1 := by
  constructor
  · rw [doSigned_result_of_final sampleEnv sampleClient "getInfo" [] script201
      ⟨201, .ok "\x7b\"success\":1\x7d"⟩ (Or.inl ⟨rfl, by decide⟩)]
    rfl
  · rw [doSigned_sent]
    rfl

/-- C3 (as amended): for every final response whose body is read successfully, `doSigned` fails
with the status error carrying the status code and the raw body exactly when the status is not
200 (so also for 201..299), and a response of status 200 is decoded against the envelope: its
result is an unmarshal error, an api error, or the decoded value, never the status error. -/
theorem doSigned_only_200_is_decoded {α : Type} (env : Env α) (c : IndodaxClient)
    (method : String) (params : List (String × String)) (Do : Nat → Except String Response)
    (resp : Response) (data : String)
    (hfinal : (Do 0 = .ok resp ∧ resp.StatusCode ≠ 429) ∨
      (∃ r1, Do 0 = .ok r1 ∧ r1.StatusCode = 429 ∧ Do 1 = .ok resp))
    (hbody : resp.Body = .ok data) :
    (resp.StatusCode ≠ 200 →
      (doSigned env c method params Do).result =
        .error ("http " ++ formatInt resp.StatusCode ++ ": " ++ data)) ∧
    (resp.StatusCode = 200 →
      (doSigned env c method params Do).result =
        match env.unmarshal data with
        | .error e => .error ("unmarshal: " ++ e)
        | .ok out =>
          if out.Success = 0 then .error ("api error: " ++ out.Error) else .ok out) := by
  rw [doSigned_result_of_final env c method params Do resp hfinal]
  exact ⟨readEnvelope_status env resp data hbody, readEnvelope_200 env resp data hbody⟩

/-- Witness of `doSigned_only_200_is_decoded`: the final response 200 after a 429. -/
theorem doSigned_only_200_is_decoded_witness :
    (doSigned sampleEnv sampleClient "getInfo" [] script429then200).result =
      .ok ⟨1, "", ()⟩ :=
  (doSigned_only_200_is_decoded sampleEnv sampleClient "getInfo" [] script429then200
    ⟨200, .ok "\x7b\"success\":1\x7d"⟩ "\x7b\"success\":1\x7d"
    (Or.inr ⟨⟨429, .ok "slow down"⟩, rfl, rfl, rfl⟩) rfl).2 rfl

/-- C4 (counterexample): for the envelope `success = 0, error = "insufficient balance"` the
error returned by `doSigned` reads `api error: insufficient balance`, which is not the string
`insufficient balance`. -/
theorem doSigned_api_error_is_prefixed :
    (doSigned sampleEnv sampleClient "trade" [("pair", "btc_idr")] script200refused).result =
      .error "api error: insufficient balance" ∧
    (doSigned sampleEnv sampleClient "trade" [("pair", "btc_idr")] script200refused).result ≠
      .error "insufficient balance" := by
  have h : (doSigned sampleEnv sampleClient "trade" [("pair", "btc_idr")]
      script200refused).result = .error "api error: insufficient balance" := by
    rw [doSigned_result_of_final sampleEnv sampleClient "trade" [("pair", "btc_idr")]
      script200refused
      ⟨200, .ok "\x7b\"success\":0,\"error\":\"insufficient balance\"\x7d"⟩
      (Or.inl ⟨rfl, by decide⟩)]
    rfl
  refine ⟨h, ?_⟩
  rw [h]
  intro hc
  injection hc with hc
  exact absurd hc (by decide)

/-- C4 (as amended): for every error string `e`, a final 200 response whose body decodes to the
envelope `success = 0, error = e` makes `doSigned` fail with the error whose message is
`api error: ` followed by exactly `e`; and a final 200 response whose envelope has `success = 1`
(any non-zero value) makes `doSigned` return the decoded value and no error. -/
theorem doSigned_envelope {α : Type} (env : Env α) (c : IndodaxClient)
    (method : String) (params : List (String × String)) (Do : Nat → Except String Response)
    (resp : Response) (data : String) (out : Decoded α)
    (hfinal : (Do 0 = .ok resp ∧ resp.StatusCode ≠ 429) ∨
      (∃ r1, Do 0 = .ok r1 ∧ r1.StatusCode = 429 ∧ Do 1 = .ok resp))
    (hstatus : resp.StatusCode = 200) (hbody : resp.Body = .ok data)
    (hdecode : env.unmarshal data = .ok out) :
    (out.Success = 0 →
      (doSigned env c method params Do).result = .error ("api error: " ++ out.Error)) ∧
    (out.Success ≠ 0 → (doSigned env c method params Do).result = .ok out) ∧
    (out.Success = 1 → (doSigned env c method params Do).result = .ok out) := by
  rw [doSigned_result_of_final env c method params Do resp hfinal,
    readEnvelope_200 env resp data hbody hstatus, hdecode]
  refine ⟨fun h => by simp [h], fun h => by simp [h], fun h => by simp [h]⟩

/-- Witness of `doSigned_envelope`: the refused order. -/
theorem doSigned_envelope_witness :
    (doSigned sampleEnv sampleClient "trade" [("pair", "btc_idr")] script200refused).result =
      .error ("api error: " ++ "insufficient balance") :=
  (doSigned_envelope sampleEnv sampleClient "trade" [("pair", "btc_idr")] script200refused
    ⟨200, .ok "\x7b\"success\":0,\"error\":\"insufficient balance\"\x7d"⟩
    "\x7b\"success\":0,\"error\":\"insufficient balance\"\x7d"
    ⟨0, "insufficient balance", ()⟩ (Or.inl ⟨rfl, by decide⟩) rfl rfl rfl).1 rfl

/-- A call made with the counter at 2^63 - 1 leaves the counter at -2^63, not at the counter
before plus 1. -/
theorem doSigned_counter_wraps_at_maxInt64 :
    (doSigned sampleEnv ⟨⟨"key", "secret"⟩, 9223372036854775807⟩ "getInfo" []
      script429then200).client.nonce = -9223372036854775808 ∧
    (doSigned sampleEnv ⟨⟨"key", "secret"⟩, 9223372036854775807⟩ "getInfo" []
      script429then200).client.nonce ≠ 9223372036854775807 + 1 := by
  rw [doSigned_client]
  have h : (nextNonce ⟨⟨"key", "secret"⟩, 9223372036854775807⟩).1.nonce =
      -9223372036854775808 := by
    simp [nextNonce, wrapInt64]
  rw [h]
  exact ⟨rfl, by decide⟩

/-- One `doSigned` call performs exactly one `nextNonce` step whether or not the retry happens,
so the counter afterwards is the counter before plus 1 unless the int64 counter was at its
maximum; the request is encoded and signed once, every `Do` is handed that same request (same
headers, among them the same `Sign`, made from the same encoded string with the same nonce),
and on a 429 it is handed over twice. -/
theorem doSigned_one_nonce_one_request {α : Type} (env : Env α) (c : IndodaxClient)
    (method : String) (params : List (String × String)) (Do : Nat → Except String Response) :
    (doSigned env c method params Do).client = (nextNonce c).1 ∧
    (minInt64 ≤ c.nonce → c.nonce < maxInt64 →
      (doSigned env c method params Do).client.nonce = c.nonce + 1) ∧
    (∀ r ∈ (doSigned env c method params Do).sent, r = (signedRequest env c method params).2) ∧
    (∀ r1, Do 0 = .ok r1 → r1.StatusCode = 429 →
      (doSigned env c method params Do).sent =
        [(signedRequest env c method params).2, (signedRequest env c method params).2]) ∧
    (signedRequest env c method params).2.header.lookup "Sign" =
      some (env.hmacSHA512Hex c.config.APISecret (signedRequest env c method params).2.body) := by
  refine ⟨doSigned_client env c method params Do, ?_, ?_, ?_, ?_⟩
  · intro h1 h2
    rw [doSigned_client, nextNonce_of_lt_max c h1 h2]
  · intro r hr
    rw [doSigned_sent] at hr
    unfold sendWithRetry at hr
    split at hr
    · simpa using hr
    · split at hr
      · split at hr <;> simp at hr <;> exact hr
      · simpa using hr
  · intro r1 h0 h429
    rw [doSigned_sent, sendWithRetry_first_429 _ _ _ h0 h429]
  · simp [signedRequest, nextNonce, List.lookup]

/-- Witness of `doSigned_one_nonce_one_request`: a retried call from a counter of
1700000000000. -/
theorem doSigned_one_nonce_one_request_witness :
    (doSigned sampleEnv sampleClient "getInfo" [] script429then200).client.nonce =
      1700000000000 + 1 ∧
    (doSigned sampleEnv sampleClient "getInfo" [] script429then200).sent =
      [(signedRequest sampleEnv sampleClient "getInfo" []).2,
        (signedRequest sampleEnv sampleClient "getInfo" []).2] :=
  ⟨(doSigned_one_nonce_one_request sampleEnv sampleClient "getInfo" []
      script429then200).2.1 (by decide) (by decide),
    (doSigned_one_nonce_one_request sampleEnv sampleClient "getInfo" []
      script429then200).2.2.2.1 ⟨429, .ok "slow down"⟩ rfl rfl⟩

/-! ## Theorems: the signed body -/

theorem strLE_antisymm {a b : String} (h1 : strLE a b) (h2 : strLE b a) : a = b :=
  String.ext (le_antisymm h1 h2)

theorem nodupKeys_mapSet (m : List (String × String)) (k v : String) (h : NodupKeys m) :
    NodupKeys (mapSet m k v) := by
  unfold NodupKeys mapSet
  rw [List.map_cons, List.nodup_cons]
  constructor
  · intro hk
    obtain ⟨e, he, hek⟩ := List.mem_map.1 hk
    have := (List.mem_filter.1 he).2
    simp [hek] at this
  · exact h.sublist ((List.filter_sublist m).map Prod.fst)

theorem mem_mapSet (m : List (String × String)) (k v : String) (e : String × String) :
    e ∈ mapSet m k v ↔ e = (k, v) ∨ (e.1 ≠ k ∧ e ∈ m) := by
  unfold mapSet
  simp only [List.mem_cons, List.mem_filter, bne_iff_ne, ne_eq]
  tauto

theorem lookup_eq_some_iff_mem {β : Type} (l : List (String × β)) (h : NodupKeys l) (k : String)
    (v : β) : l.lookup k = some v ↔ (k, v) ∈ l := by
  induction l with
  | nil => simp
  | cons a l ih =>
    obtain ⟨a1, a2⟩ := a
    unfold NodupKeys at h
    rw [List.map_cons, List.nodup_cons] at h
    by_cases hk : k = a1
    · subst hk
      have hnot : (k, v) ∉ l := fun hm => h.1 (List.mem_map.2 ⟨(k, v), hm, rfl⟩)
      simp [List.lookup, hnot, eq_comm]
    · have hbeq : (k == a1) = false := by simpa using hk
      simp only [List.lookup, hbeq, List.mem_cons, Prod.mk.injEq, hk, false_and, false_or]
      exact ih h.2

theorem foldl_Set_eq (l : List (String × String)) :
    ∀ acc : Values, NodupKeys l → (∀ e ∈ l, ∀ x ∈ acc, x.1 ≠ e.1) →
      l.foldl (fun f kv => Values.Set f kv.1 kv.2) acc =
        l.reverse.map (fun kv => (kv.1, [kv.2])) ++ acc := by
  induction l with
  | nil => intro acc _ _; simp
  | cons a l ih =>
    intro acc hnd hdis
    unfold NodupKeys at hnd
    rw [List.map_cons, List.nodup_cons] at hnd
    have hset : Values.Set acc a.1 a.2 = (a.1, [a.2]) :: acc := by
      unfold Values.Set
      congr 1
      apply List.filter_eq_self.2
      intro x hx
      simpa using hdis a (List.mem_cons_self _ _) x hx
    rw [List.foldl_cons, hset, ih _ hnd.2]
    · simp
    · intro e he x hx
      rcases List.mem_cons.1 hx with rfl | hx
      · intro heq
        exact hnd.1 (List.mem_map.2 ⟨e, he, heq.symm⟩)
      · exact hdis e (List.mem_cons_of_mem _ he) x hx

theorem lookup_map_singleton (q : List (String × String)) (k : String) :
    (q.map (fun kv => ((kv.1, [kv.2]) : String × List String))).lookup k =
      (q.lookup k).map (fun v => [v]) := by
  induction q with
  | nil => rfl
  | cons a q ih =>
    simp only [List.map_cons, List.lookup]
    split <;> simp_all

theorem foldl_congr_mem {β γ : Type} (f g : β → γ → β) (l : List γ) :
    ∀ init : β, (∀ b, ∀ x ∈ l, f b x = g b x) → l.foldl f init = l.foldl g init := by
  induction l with
  | nil => intro _ _; rfl
  | cons a l ih =>
    intro init h
    rw [List.foldl_cons, List.foldl_cons, h init a (List.mem_cons_self _ _)]
    exact ih _ (fun b x hx => h b x (List.mem_cons_of_mem _ hx))

theorem formPart_length_pos (esc : String → String) (kv : String × String) :
    0 < (formPart esc kv).length := by
  unfold formPart
  simp only [String.length_append]
  have : ("=" : String).length = 1 := rfl
  omega

theorem foldl_amp_eq_go (ps : List String) :
    ∀ acc : String, 0 < acc.length →
      ps.foldl (fun buf p => (if buf.length > 0 then buf ++ "&" else buf) ++ p) acc =
        String.intercalate.go acc "&" ps := by
  induction ps with
  | nil => intro acc _; rfl
  | cons p ps ih =>
    intro acc hacc
    rw [List.foldl_cons, String.intercalate.go]
    simp only [gt_iff_lt, hacc, if_true]
    apply ih
    simp only [String.length_append]
    omega

theorem foldl_amp_eq_intercalate (ps : List String) (hpos : ∀ p ∈ ps, 0 < p.length) :
    ps.foldl (fun buf p => (if buf.length > 0 then buf ++ "&" else buf) ++ p) "" =
      "&".intercalate ps := by
  cases ps with
  | nil => rfl
  | cons p ps =>
    rw [List.foldl_cons, String.intercalate]
    have h0 : ¬ (("" : String).length > 0) := by decide
    simp only [h0, if_false, String.empty_append]
    exact foldl_amp_eq_go ps p (hpos p (List.mem_cons_self _ _))

theorem mem_sortedByKey (q : List (String × String)) (h : NodupKeys q) (e : String × String) :
    e ∈ sortedByKey q ↔ e ∈ q := by
  obtain ⟨k, v⟩ := e
  unfold sortedByKey
  simp only [List.mem_map, Prod.mk.injEq]
  constructor
  · rintro ⟨k2, hk2, rfl, hv⟩
    have hmem : k2 ∈ q.map Prod.fst := (List.perm_insertionSort strLE _).mem_iff.1 hk2
    obtain ⟨e, he, hek⟩ := List.mem_map.1 hmem
    have hl : q.lookup k2 = some e.2 :=
      (lookup_eq_some_iff_mem q h k2 e.2).2 (by rw [← hek]; exact he)
    rw [hl] at hv
    simp only [Option.getD_some] at hv
    rw [← hv, ← hek]
    exact he
  · intro hm
    refine ⟨k, ?_, rfl, ?_⟩
    · exact (List.perm_insertionSort strLE _).mem_iff.2 (List.mem_map.2 ⟨(k, v), hm, rfl⟩)
    · rw [(lookup_eq_some_iff_mem q h k v).2 hm]
      rfl

theorem sortedByKey_pairwise (q : List (String × String)) (h : NodupKeys q) :
    (sortedByKey q).Pairwise (fun a b => a.1.data < b.1.data) := by
  unfold sortedByKey
  rw [List.pairwise_map]
  have hs : ((q.map Prod.fst).insertionSort strLE).Pairwise strLE :=
    List.sorted_insertionSort strLE _
  have hn : ((q.map Prod.fst).insertionSort strLE).Pairwise (fun a b => a ≠ b) :=
    ((List.perm_insertionSort strLE _).nodup_iff.2 h)
  apply (hs.and hn).imp
  intro a b hab
  exact lt_of_le_of_ne hab.1 (fun hd => hab.2 (String.ext hd))

theorem pairwise_key_lt_unique (l1 l2 : List (String × String))
    (h1 : l1.Pairwise (fun a b => a.1.data < b.1.data))
    (h2 : l2.Pairwise (fun a b => a.1.data < b.1.data))
    (hmem : ∀ e, e ∈ l1 ↔ e ∈ l2) : l1 = l2 := by
  have irr : ∀ l : List (String × String),
      l.Pairwise (fun a b => a.1.data < b.1.data) → l.Nodup := by
    intro l hl
    apply hl.imp
    intro a b hab heq
    rw [heq] at hab
    exact lt_irrefl _ hab
  have hperm : l1.Perm l2 := (List.perm_ext_iff_of_nodup (irr l1 h1) (irr l2 h2)).2 hmem
  haveI : IsAntisymm (String × String) (fun a b => a.1.data < b.1.data) :=
    ⟨fun a b hab hba => absurd (lt_trans hab hba) (lt_irrefl _)⟩
  exact List.eq_of_perm_of_sorted hperm h1 h2

theorem encode_of_nodupKeys (esc : String → String) (q : List (String × String))
    (h : NodupKeys q) :
    Values.Encode esc (q.map (fun kv => (kv.1, [kv.2]))) =
      "&".intercalate ((sortedByKey q).map (formPart esc)) := by
  rw [← foldl_amp_eq_intercalate _ (by
    intro p hp
    obtain ⟨kv, _, rfl⟩ := List.mem_map.1 hp
    exact formPart_length_pos esc kv)]
  unfold Values.Encode sortedByKey
  simp only [List.map_map, List.foldl_map]
  have hkeys : (Prod.fst ∘ fun kv : String × String => (kv.1, [kv.2])) = Prod.fst := rfl
  rw [hkeys]
  apply foldl_congr_mem
  intro buf k hk
  have hmem : k ∈ q.map Prod.fst := (List.perm_insertionSort strLE _).mem_iff.1 hk
  obtain ⟨e, he, hek⟩ := List.mem_map.1 hmem
  have hl : q.lookup k = some e.2 :=
    (lookup_eq_some_iff_mem q h k e.2).2 (by rw [← hek]; exact he)
  rw [lookup_map_singleton, hl]
  simp only [Option.map_some', Option.getD_some, List.foldl_cons, List.foldl_nil,
    Function.comp, formPart, String.append_assoc, hl]

/-- The parameters after the two assignments of `doSigned`. -/
theorem mem_merged (params : List (String × String)) (method nonce : String)
    (e : String × String) :
    e ∈ mapSet (mapSet params "method" method) "nonce" nonce ↔
      e = ("method", method) ∨ e = ("nonce", nonce) ∨
        (e.1 ≠ "method" ∧ e.1 ≠ "nonce" ∧ e ∈ params) := by
  rw [mem_mapSet, mem_mapSet]
  constructor
  · rintro (h | ⟨h1, h | ⟨h2, h3⟩⟩)
    · exact Or.inr (Or.inl h)
    · exact Or.inl h
    · exact Or.inr (Or.inr ⟨h2, h1, h3⟩)
  · rintro (h | h | ⟨h1, h2, h3⟩)
    · refine Or.inr ⟨?_, Or.inl h⟩
      rw [h]
      simp
    · exact Or.inl h
    · exact Or.inr ⟨h2, Or.inr ⟨h1, h3⟩⟩

theorem signedRequest_body {α : Type} (env : Env α) (c : IndodaxClient) (method : String)
    (params : List (String × String)) (h : NodupKeys params) :
    (signedRequest env c method params).2.body =
      "&".intercalate
        ((sortedByKey (mapSet (mapSet params "method" method) "nonce"
          (formatInt (nextNonce c).2)).reverse).map (formPart env.queryEscape)) := by
  have hnd := nodupKeys_mapSet _ "nonce" (formatInt (nextNonce c).2)
    (nodupKeys_mapSet params "method" method h)
  have hrev : NodupKeys (mapSet (mapSet params "method" method) "nonce"
      (formatInt (nextNonce c).2)).reverse := by
    unfold NodupKeys at hnd ⊢
    rw [List.map_reverse]
    exact List.nodup_reverse.2 hnd
  simp only [signedRequest]
  rw [foldl_Set_eq _ [] hnd (by simp), List.append_nil]
  exact encode_of_nodupKeys env.queryEscape _ hrev

theorem signedRequest_eq {α : Type} (env : Env α) (c : IndodaxClient) (method : String)
    (params : List (String × String)) :
    signedRequest env c method params =
      ((nextNonce c).1, ⟨"POST", apiURL,
        [("Content-Type", "application/x-www-form-urlencoded"),
          ("Key", (nextNonce c).1.config.APIKey),
          ("Sign", env.hmacSHA512Hex (nextNonce c).1.config.APISecret
            (signedRequest env c method params).2.body)],
        (signedRequest env c method params).2.body⟩) := rfl

theorem mem_sent {α : Type} (env : Env α) (c : IndodaxClient) (method : String)
    (params : List (String × String)) (Do : Nat → Except String Response) (r : Request)
    (hr : r ∈ (doSigned env c method params Do).sent) :
    r = (signedRequest env c method params).2 := by
  rw [doSigned_sent] at hr
  unfold sendWithRetry at hr
  split at hr
  · simpa using hr
  · split at hr
    · split at hr <;> simp at hr <;> exact hr
    · simpa using hr

/-- C6: for a caller map (pairwise distinct keys) the body built by `doSigned` is the `&`-joined
list of `key=value` items of a list `pairs` that is in strictly ascending key order and whose
entries are exactly `method` with the method of the call, `nonce` with the fresh nonce, and the
caller entries under other keys; so it is a function of the merged key/value set only (two maps
with the same entries, in whatever iteration order, give the same requests), and the string that
is signed is the string that is sent as the body. -/
theorem doSigned_body_canonical {α : Type} (env : Env α) (c : IndodaxClient) (method : String)
    (params : List (String × String)) (Do : Nat → Except String Response)
    (hmap : NodupKeys params) :
    (∃ pairs : List (String × String),
      (∀ e, e ∈ pairs ↔
        e = ("method", method) ∨ e = ("nonce", formatInt (nextNonce c).2) ∨
          (e.1 ≠ "method" ∧ e.1 ≠ "nonce" ∧ e ∈ params)) ∧
      pairs.Pairwise (fun a b => a.1.data < b.1.data) ∧
      (doSigned env c method params Do).sent ≠ [] ∧
      (∀ r ∈ (doSigned env c method params Do).sent,
        r.body = "&".intercalate (pairs.map (formPart env.queryEscape)) ∧
        r.header.lookup "Sign" = some (env.hmacSHA512Hex c.config.APISecret r.body))) ∧
    (∀ params2 : List (String × String), NodupKeys params2 →
      (∀ e, e ∈ params2 ↔ e ∈ params) →
        doSigned env c method params2 Do = doSigned env c method params Do) := by
  have hnd : ∀ p : List (String × String), NodupKeys p →
      NodupKeys (mapSet (mapSet p "method" method) "nonce" (formatInt (nextNonce c).2)).reverse := by
    intro p hp
    have h1 := nodupKeys_mapSet _ "nonce" (formatInt (nextNonce c).2)
      (nodupKeys_mapSet p "method" method hp)
    unfold NodupKeys at h1 ⊢
    rw [List.map_reverse]
    exact List.nodup_reverse.2 h1
  have hmem : ∀ p : List (String × String), NodupKeys p → ∀ e,
      e ∈ sortedByKey (mapSet (mapSet p "method" method) "nonce"
        (formatInt (nextNonce c).2)).reverse ↔
      e = ("method", method) ∨ e = ("nonce", formatInt (nextNonce c).2) ∨
        (e.1 ≠ "method" ∧ e.1 ≠ "nonce" ∧ e ∈ p) := by
    intro p hp e
    rw [mem_sortedByKey _ (hnd p hp), List.mem_reverse, mem_merged]
  constructor
  · refine ⟨_, hmem params hmap, sortedByKey_pairwise _ (hnd params hmap), ?_, ?_⟩
    · rw [doSigned_sent]
      unfold sendWithRetry
      split
      · simp
      · split
        · split <;> simp
        · simp
    · intro r hr
      rw [mem_sent env c method params Do r hr]
      refine ⟨signedRequest_body env c method params hmap, ?_⟩
      simp [signedRequest, nextNonce, List.lookup]
  · intro params2 hmap2 hsame
    have hbody : (signedRequest env c method params2).2.body =
        (signedRequest env c method params).2.body := by
      rw [signedRequest_body env c method params2 hmap2,
        signedRequest_body env c method params hmap]
      congr 2
      apply pairwise_key_lt_unique _ _ (sortedByKey_pairwise _ (hnd params2 hmap2))
        (sortedByKey_pairwise _ (hnd params hmap))
      intro e
      rw [hmem params2 hmap2, hmem params hmap, hsame]
    have hreq : signedRequest env c method params2 = signedRequest env c method params := by
      rw [signedRequest_eq env c method params2, signedRequest_eq env c method params, hbody]
    simp only [doSigned, hreq]

/-- Witness of `doSigned_body_canonical`: a `trade` call with two caller parameters. -/
theorem doSigned_body_canonical_witness :
    NodupKeys sampleParams ∧
    (∀ params2 : List (String × String), NodupKeys params2 →
      (∀ e, e ∈ params2 ↔ e ∈ sampleParams) →
        doSigned sampleEnv sampleClient "trade" params2 script429then200 =
          doSigned sampleEnv sampleClient "trade" sampleParams script429then200) :=
  ⟨by decide,
    (doSigned_body_canonical sampleEnv sampleClient "trade" sampleParams script429then200
      (by decide)).2⟩

/-- The body of the sample `trade` call, evaluated. -/
theorem signedRequest_sample_body :
    (signedRequest sampleEnv sampleClient "trade" sampleParams).2.body =
      "method=trade&nonce=1700000000001&pair=btc_idr&type=buy" := by
  decide

/-! ## Theorems: the moving averages as finite sums -/

theorem sum_map_range (f : ℕ → ℚ) (n : ℕ) :
    ((List.range n).map f).sum = ∑ i ∈ Finset.range n, f i := by
  induction n with
  | zero => simp
  | succ n ih => rw [List.sum_range_succ, Finset.sum_range_succ, ih]

theorem sum_map_enumFrom (g : ℕ → ℚ → ℚ) (ps : List ℚ) :
    ∀ k : ℕ, ((List.enumFrom k ps).map (fun ip => g ip.1 ip.2)).sum =
      ∑ i ∈ Finset.range ps.length, g (k + i) (ps.getD i 0) := by
  induction ps with
  | nil => intro k; simp
  | cons p ps ih =>
    intro k
    rw [List.enumFrom_cons, List.map_cons, List.sum_cons, ih (k + 1), List.length_cons,
      Finset.sum_range_succ', add_comm]
    congr 1
    apply Finset.sum_congr rfl
    intro i _
    rw [List.getD_cons_succ]
    congr 1
    omega

theorem getD_weights (w : ℕ → ℚ) (n i : ℕ) (h : i < n) :
    ((List.range n).map w).getD i 0 = w i := by
  rw [List.getD_eq_getElem _ _ (by simpa using h)]
  simp

/-- The function `ewma` written with finite sums. -/
theorem ewmaExact_eq_sum (prices : List ℚ) (lam nf : ℚ) :
    ewmaExact prices lam nf =
      (1 / ∑ i ∈ Finset.range prices.length, (1 - lam) * lam ^ i) *
        ∑ i ∈ Finset.range prices.length, (1 - lam) * lam ^ i * prices.getD i 0 * nf := by
  unfold ewmaExact
  simp only
  rw [sum_map_range, List.enum,
    sum_map_enumFrom (fun i p =>
      ((List.range prices.length).map (fun i => (1 - lam) * lam ^ i)).getD i 0 * p * nf)]
  congr 1
  apply Finset.sum_congr rfl
  intro i hi
  rw [zero_add, getD_weights _ _ _ (Finset.mem_range.1 hi)]

/-- The normalised average `(Σ lam^i x_i) / (Σ lam^i)` of the first `n` values. -/
theorem ewmaExact_eq_quotient (prices : List ℚ) (lam nf : ℚ) (h1 : lam < 1) :
    ewmaExact prices lam nf =
      nf * ((∑ i ∈ Finset.range prices.length, lam ^ i * prices.getD i 0) /
        ∑ i ∈ Finset.range prices.length, lam ^ i) := by
  rw [ewmaExact_eq_sum]
  have hne : (1 - lam) ≠ 0 := by linarith
  have e1 : ∑ i ∈ Finset.range prices.length, (1 - lam) * lam ^ i =
      (1 - lam) * ∑ i ∈ Finset.range prices.length, lam ^ i := by
    rw [Finset.mul_sum]
  have e2 : ∑ i ∈ Finset.range prices.length, (1 - lam) * lam ^ i * prices.getD i 0 * nf =
      (1 - lam) * nf * ∑ i ∈ Finset.range prices.length, lam ^ i * prices.getD i 0 := by
    rw [Finset.mul_sum]
    apply Finset.sum_congr rfl
    intro i _
    ring
  rw [e1, e2]
  by_cases hS : ∑ i ∈ Finset.range prices.length, lam ^ i = 0
  · rw [hS]
    simp
  · field_simp
    ring

theorem sum_pow_pos (lam : ℚ) (h0 : 0 < lam) (n : ℕ) (hn : 0 < n) :
    0 < ∑ i ∈ Finset.range n, lam ^ i := by
  apply Finset.sum_pos
  · intro i _
    exact pow_pos h0 i
  · exact ⟨0, Finset.mem_range.2 hn⟩

/-- A moving average of prices that all lie in `[a, b]` lies in `[nf * a, nf * b]`. -/
theorem ewmaExact_bounds (prices : List ℚ) (lam nf a b : ℚ) (h0 : 0 < lam) (h1 : lam < 1)
    (hnf : 0 ≤ nf) (hn : 0 < prices.length)
    (hab : ∀ i, i < prices.length → a ≤ prices.getD i 0 ∧ prices.getD i 0 ≤ b) :
    nf * a ≤ ewmaExact prices lam nf ∧ ewmaExact prices lam nf ≤ nf * b := by
  rw [ewmaExact_eq_quotient prices lam nf h1]
  have hS := sum_pow_pos lam h0 prices.length hn
  have hlo : a * ∑ i ∈ Finset.range prices.length, lam ^ i ≤
      ∑ i ∈ Finset.range prices.length, lam ^ i * prices.getD i 0 := by
    rw [Finset.mul_sum]
    apply Finset.sum_le_sum
    intro i hi
    have := (hab i (Finset.mem_range.1 hi)).1
    have hp := pow_pos h0 i
    nlinarith
  have hhi : ∑ i ∈ Finset.range prices.length, lam ^ i * prices.getD i 0 ≤
      b * ∑ i ∈ Finset.range prices.length, lam ^ i := by
    rw [Finset.mul_sum]
    apply Finset.sum_le_sum
    intro i hi
    have := (hab i (Finset.mem_range.1 hi)).2
    have hp := pow_pos h0 i
    nlinarith
  constructor
  · apply mul_le_mul_of_nonneg_left _ hnf
    rw [le_div_iff₀ hS]
    exact hlo
  · apply mul_le_mul_of_nonneg_left _ hnf
    rw [div_le_iff₀ hS]
    exact hhi

/-- A moving average of a constant series is the constant times `nf`. -/
theorem ewmaExact_const (prices : List ℚ) (lam nf c : ℚ) (h0 : 0 < lam) (h1 : lam < 1)
    (hn : 0 < prices.length) (hc : ∀ i, i < prices.length → prices.getD i 0 = c) :
    ewmaExact prices lam nf = c * nf := by
  rw [ewmaExact_eq_quotient prices lam nf h1]
  have hS := sum_pow_pos lam h0 prices.length hn
  have e : ∑ i ∈ Finset.range prices.length, lam ^ i * prices.getD i 0 =
      c * ∑ i ∈ Finset.range prices.length, lam ^ i := by
    rw [Finset.mul_sum]
    apply Finset.sum_congr rfl
    intro i hi
    rw [hc i (Finset.mem_range.1 hi)]
    ring
  rw [e]
  field_simp
  ring

theorem getD_mem_of_lt (prices : List ℚ) (i : ℕ) (h : i < prices.length) :
    prices.getD i 0 ∈ prices := by
  rw [List.getD_eq_getElem _ _ h]
  apply List.getElem_mem

theorem pow_cross_lt (lam mu : ℚ) (h0 : 0 < lam) (hlt : lam < mu) (i n : ℕ) (hi : i < n) :
    lam ^ n * mu ^ i < mu ^ n * lam ^ i := by
  have e1 : lam ^ n = lam ^ i * lam ^ (n - i) := by
    rw [← pow_add]
    congr 1
    omega
  have e2 : mu ^ n = mu ^ i * mu ^ (n - i) := by
    rw [← pow_add]
    congr 1
    omega
  have hd : lam ^ (n - i) < mu ^ (n - i) := pow_lt_pow_left₀ hlt h0.le (by omega)
  have hp : 0 < lam ^ i * mu ^ i := mul_pos (pow_pos h0 i) (pow_pos (h0.trans hlt) i)
  rw [e1, e2]
  nlinarith

/-- The cross product that compares two normalised averages: it is not negative once the values
fall with the index, and positive from two values on. -/
theorem cross_nonneg_pos (x : ℕ → ℚ) (lam mu : ℚ) (h0 : 0 < lam) (hlt : lam < mu) :
    ∀ n : ℕ, (∀ i, i < n → ∀ j, j < i → x i < x j) →
      0 ≤ (∑ i ∈ Finset.range n, lam ^ i * x i) * (∑ i ∈ Finset.range n, mu ^ i) -
          (∑ i ∈ Finset.range n, mu ^ i * x i) * (∑ i ∈ Finset.range n, lam ^ i) ∧
      (2 ≤ n →
        0 < (∑ i ∈ Finset.range n, lam ^ i * x i) * (∑ i ∈ Finset.range n, mu ^ i) -
          (∑ i ∈ Finset.range n, mu ^ i * x i) * (∑ i ∈ Finset.range n, lam ^ i)) := by
  intro n
  induction n with
  | zero => intro _; simp
  | succ n ih =>
    intro hdec
    obtain ⟨ih0, ihpos⟩ := ih (fun i hi j hj => hdec i (by omega) j hj)
    have hE : ∑ i ∈ Finset.range n, (mu ^ n * lam ^ i - lam ^ n * mu ^ i) * (x i - x n) =
        mu ^ n * (∑ i ∈ Finset.range n, lam ^ i * x i) -
          mu ^ n * x n * (∑ i ∈ Finset.range n, lam ^ i) -
          lam ^ n * (∑ i ∈ Finset.range n, mu ^ i * x i) +
          lam ^ n * x n * (∑ i ∈ Finset.range n, mu ^ i) := by
      rw [Finset.mul_sum, Finset.mul_sum, Finset.mul_sum, Finset.mul_sum,
        ← Finset.sum_sub_distrib, ← Finset.sum_sub_distrib, ← Finset.sum_add_distrib]
      apply Finset.sum_congr rfl
      intro i _
      ring
    have hterm : ∀ i ∈ Finset.range n,
        0 < (mu ^ n * lam ^ i - lam ^ n * mu ^ i) * (x i - x n) := by
      intro i hi
      have hin := Finset.mem_range.1 hi
      apply mul_pos
      · linarith [pow_cross_lt lam mu h0 hlt i n hin]
      · linarith [hdec n (by omega) i hin]
    have hE0 : 0 ≤ ∑ i ∈ Finset.range n, (mu ^ n * lam ^ i - lam ^ n * mu ^ i) * (x i - x n) :=
      Finset.sum_nonneg (fun i hi => (hterm i hi).le)
    have hsplit :
        (∑ i ∈ Finset.range (n + 1), lam ^ i * x i) * (∑ i ∈ Finset.range (n + 1), mu ^ i) -
          (∑ i ∈ Finset.range (n + 1), mu ^ i * x i) * (∑ i ∈ Finset.range (n + 1), lam ^ i) =
        ((∑ i ∈ Finset.range n, lam ^ i * x i) * (∑ i ∈ Finset.range n, mu ^ i) -
          (∑ i ∈ Finset.range n, mu ^ i * x i) * (∑ i ∈ Finset.range n, lam ^ i)) +
        ∑ i ∈ Finset.range n, (mu ^ n * lam ^ i - lam ^ n * mu ^ i) * (x i - x n) := by
      rw [hE, Finset.sum_range_succ, Finset.sum_range_succ, Finset.sum_range_succ,
        Finset.sum_range_succ]
      ring
    rw [hsplit]
    constructor
    · linarith
    · intro h2
      have hEpos : 0 < ∑ i ∈ Finset.range n,
          (mu ^ n * lam ^ i - lam ^ n * mu ^ i) * (x i - x n) :=
        Finset.sum_pos hterm ⟨0, Finset.mem_range.2 (by omega)⟩
      linarith

/-- On prices that fall strictly with the index (a series rising in time, most recent first)
the moving average is strictly larger for the smaller decay factor. -/
theorem ewmaExact_lt_of_falling (prices : List ℚ) (lam mu nf : ℚ) (h0 : 0 < lam) (hlt : lam < mu)
    (h1 : mu < 1) (hnf : 0 < nf) (hn : 2 ≤ prices.length)
    (hfall : prices.Pairwise (fun a b => b < a)) :
    ewmaExact prices mu nf < ewmaExact prices lam nf := by
  rw [ewmaExact_eq_quotient prices lam nf (hlt.trans h1), ewmaExact_eq_quotient prices mu nf h1]
  have hSl := sum_pow_pos lam h0 prices.length (by omega)
  have hSm := sum_pow_pos mu (h0.trans hlt) prices.length (by omega)
  have hdec : ∀ i, i < prices.length → ∀ j, j < i → prices.getD i 0 < prices.getD j 0 := by
    intro i hi j hj
    rw [List.getD_eq_getElem _ _ hi, List.getD_eq_getElem _ _ (hj.trans hi)]
    exact List.pairwise_iff_getElem.1 hfall j i (hj.trans hi) hi hj
  have hcross := (cross_nonneg_pos (fun i => prices.getD i 0) lam mu h0 hlt prices.length
    hdec).2 hn
  apply mul_lt_mul_of_pos_left _ hnf
  rw [div_lt_div_iff₀ hSm hSl]
  linarith

/-! ## Theorems: the trend score -/

theorem sumSignsExact_four (a b c d : ℚ) :
    sumSignsExact [a, b, c, d] = signOfExact a + signOfExact b + signOfExact c + signOfExact d := by
  simp only [sumSignsExact, signOfExact, List.foldl_cons, List.foldl_nil]
  split_ifs <;> ring

theorem differencesExact_movingAverages (cl : List ℚ) :
    differencesExact (movingAveragesExact cl) =
      [ewmaExact cl (lambdasExact.getD 0 0) (nfsExact.getD 0 0) - ewmaExact cl (lambdasExact.getD 2 0) (nfsExact.getD 2 0),
        ewmaExact cl (lambdasExact.getD 1 0) (nfsExact.getD 1 0) - ewmaExact cl (lambdasExact.getD 3 0) (nfsExact.getD 3 0),
        ewmaExact cl (lambdasExact.getD 2 0) (nfsExact.getD 2 0) - ewmaExact cl (lambdasExact.getD 4 0) (nfsExact.getD 4 0),
        ewmaExact cl (lambdasExact.getD 3 0) (nfsExact.getD 3 0) - ewmaExact cl (lambdasExact.getD 5 0) (nfsExact.getD 5 0)] :=
  rfl

/-- The score of a series of at least 180 candles is the mean of the four signs. -/
theorem computeIndicatorExact_of_enough (parseReal : String → ℚ) (klines : List Kline)
    (h : ¬ klines.length < 180) :
    computeIndicatorExact parseReal (.ok klines) =
      .ok ((signOfExact ((differencesExact (movingAveragesExact (closesOfExact parseReal klines))).getD 0 0) +
        signOfExact ((differencesExact (movingAveragesExact (closesOfExact parseReal klines))).getD 1 0) +
        signOfExact ((differencesExact (movingAveragesExact (closesOfExact parseReal klines))).getD 2 0) +
        signOfExact ((differencesExact (movingAveragesExact (closesOfExact parseReal klines))).getD 3 0)) / 4) := by
  simp only [computeIndicatorExact, h, if_false]
  rw [differencesExact_movingAverages, sumSignsExact_four]
  rfl

theorem signOfExact_of_nonneg (d : ℚ) (h : 0 ≤ d) : signOfExact d = 1 := by
  simp [signOfExact, h]

theorem signOfExact_of_neg (d : ℚ) (h : d < 0) : signOfExact d = -1 := by
  simp [signOfExact, not_le.2 h]

theorem signOfExact_cases (d : ℚ) : signOfExact d = 1 ∨ signOfExact d = -1 := by
  unfold signOfExact
  split_ifs
  · exact Or.inl rfl
  · exact Or.inr rfl

theorem closesOfExact_length (parseReal : String → ℚ) (klines : List Kline) :
    (closesOfExact parseReal klines).length = klines.length := by
  simp [closesOfExact]

theorem closesOfExact_falling (parseReal : String → ℚ) (klines : List Kline)
    (hinc : (klines.map (fun k => parseReal k.Close)).Pairwise (fun a b => a < b)) :
    (closesOfExact parseReal klines).Pairwise (fun a b => b < a) := by
  unfold closesOfExact
  rw [List.map_reverse, List.pairwise_reverse]
  exact hinc

/-- On a series rising strictly in time the two differences between averages of equal
normalisation factor are positive. -/
theorem differencesExact_rising (parseReal : String → ℚ) (klines : List Kline)
    (hlen : 2 ≤ klines.length)
    (hinc : (klines.map (fun k => parseReal k.Close)).Pairwise (fun a b => a < b)) :
    0 < (differencesExact (movingAveragesExact (closesOfExact parseReal klines))).getD 0 0 ∧
    0 < (differencesExact (movingAveragesExact (closesOfExact parseReal klines))).getD 1 0 := by
  have hfall := closesOfExact_falling parseReal klines hinc
  have hl : 2 ≤ (closesOfExact parseReal klines).length := by
    rw [closesOfExact_length]
    exact hlen
  rw [differencesExact_movingAverages]
  simp only [List.getD_cons_zero, List.getD_cons_succ]
  constructor
  · have := ewmaExact_lt_of_falling (closesOfExact parseReal klines) (lambdasExact.getD 0 0)
      (lambdasExact.getD 2 0) (nfsExact.getD 0 0) (by norm_num [lambdasExact]) (by norm_num [lambdasExact])
      (by norm_num [lambdasExact]) (by norm_num [nfsExact]) hl hfall
    have e : nfsExact.getD 2 0 = nfsExact.getD 0 0 := by norm_num [nfsExact]
    rw [e]
    linarith
  · have := ewmaExact_lt_of_falling (closesOfExact parseReal klines) (lambdasExact.getD 1 0)
      (lambdasExact.getD 3 0) (nfsExact.getD 1 0) (by norm_num [lambdasExact]) (by norm_num [lambdasExact])
      (by norm_num [lambdasExact]) (by norm_num [nfsExact]) hl hfall
    have e : nfsExact.getD 3 0 = nfsExact.getD 1 0 := by norm_num [nfsExact]
    rw [e]
    linarith

theorem ewmaExact_bounds_mem (prices : List ℚ) (lam nf a b : ℚ) (h0 : 0 < lam) (h1 : lam < 1)
    (hnf : 0 ≤ nf) (hn : 0 < prices.length) (hab : ∀ p ∈ prices, a ≤ p ∧ p ≤ b) :
    nf * a ≤ ewmaExact prices lam nf ∧ ewmaExact prices lam nf ≤ nf * b :=
  ewmaExact_bounds prices lam nf a b h0 h1 hnf hn
    (fun i hi => hab _ (getD_mem_of_lt prices i hi))

theorem ewmaExact_const_mem (prices : List ℚ) (lam nf c : ℚ) (h0 : 0 < lam) (h1 : lam < 1)
    (hn : 0 < prices.length) (hc : ∀ p ∈ prices, p = c) :
    ewmaExact prices lam nf = c * nf :=
  ewmaExact_const prices lam nf c h0 h1 hn (fun i hi => hc _ (getD_mem_of_lt prices i hi))

theorem risingExact_closes :
    risingKlines.map (fun k => sampleParseExact k.Close) =
      (List.range 200).map (fun t : ℕ => (100000 + t : ℚ)) := by
  have hdig : ∀ t, t < 200 → (Nat.repr (100000 + t)).data.all Char.isDigit = true := by
    set_option maxRecDepth 100000 in decide
  have hval : ∀ t, t < 200 → parseDigits (Nat.repr (100000 + t)) = 100000 + t := by
    set_option maxRecDepth 100000 in decide
  unfold risingKlines
  rw [List.map_map]
  apply List.map_congr_left
  intro t ht
  have hlt := List.mem_range.1 ht
  simp only [Function.comp, klineWithClose, sampleParseExact, hdig t hlt, if_true, hval t hlt]
  push_cast
  rfl

theorem risingExact_increasing :
    (risingKlines.map (fun k => sampleParseExact k.Close)).Pairwise (fun a b => a < b) := by
  rw [risingExact_closes, List.pairwise_map]
  apply (List.pairwise_lt_range 200).imp
  intro a b hab
  have : (a : ℚ) < (b : ℚ) := by exact_mod_cast hab
  linarith

theorem risingExact_closes_bounds :
    ∀ p ∈ closesOfExact sampleParseExact risingKlines, (100000 : ℚ) ≤ p ∧ p ≤ 100199 := by
  intro p hp
  unfold closesOfExact at hp
  rw [List.map_reverse, List.mem_reverse, risingExact_closes] at hp
  obtain ⟨t, ht, rfl⟩ := List.mem_map.1 hp
  have hlt := List.mem_range.1 ht
  have h1 : (t : ℚ) ≤ 199 := by exact_mod_cast Nat.lt_succ_iff.1 hlt
  have h2 : (0 : ℚ) ≤ (t : ℚ) := Nat.cast_nonneg t
  constructor <;> linarith

/-- Exact arithmetic: the 200 closes 100000, 100001, ..., 100199 rise strictly in time, yet
the third and fourth differences are negative and the score is 0, not 1. -/
theorem computeIndicatorExact_rising_scores_zero :
    risingKlines.length = 200 ∧
    (risingKlines.map (fun k => sampleParseExact k.Close)).Pairwise (fun a b => a < b) ∧
    (differencesExact (movingAveragesExact (closesOfExact sampleParseExact risingKlines))).getD 2 0 < 0 ∧
    (differencesExact (movingAveragesExact (closesOfExact sampleParseExact risingKlines))).getD 3 0 < 0 ∧
    computeIndicatorExact sampleParseExact (.ok risingKlines) = .ok 0 ∧
    computeIndicatorExact sampleParseExact (.ok risingKlines) ≠ .ok 1 := by
  have hlen : risingKlines.length = 200 := by simp [risingKlines]
  have hcl : 0 < (closesOfExact sampleParseExact risingKlines).length := by
    rw [closesOfExact_length, hlen]
    decide
  have hpos := differencesExact_rising sampleParseExact risingKlines (by rw [hlen]; decide)
    risingExact_increasing
  have b2 := ewmaExact_bounds_mem (closesOfExact sampleParseExact risingKlines) (lambdasExact.getD 2 0)
    (nfsExact.getD 2 0) 100000 100199 (by norm_num [lambdasExact]) (by norm_num [lambdasExact])
    (by norm_num [nfsExact]) hcl risingExact_closes_bounds
  have b3 := ewmaExact_bounds_mem (closesOfExact sampleParseExact risingKlines) (lambdasExact.getD 3 0)
    (nfsExact.getD 3 0) 100000 100199 (by norm_num [lambdasExact]) (by norm_num [lambdasExact])
    (by norm_num [nfsExact]) hcl risingExact_closes_bounds
  have b4 := ewmaExact_bounds_mem (closesOfExact sampleParseExact risingKlines) (lambdasExact.getD 4 0)
    (nfsExact.getD 4 0) 100000 100199 (by norm_num [lambdasExact]) (by norm_num [lambdasExact])
    (by norm_num [nfsExact]) hcl risingExact_closes_bounds
  have b5 := ewmaExact_bounds_mem (closesOfExact sampleParseExact risingKlines) (lambdasExact.getD 5 0)
    (nfsExact.getD 5 0) 100000 100199 (by norm_num [lambdasExact]) (by norm_num [lambdasExact])
    (by norm_num [nfsExact]) hcl risingExact_closes_bounds
  have n2 : nfsExact.getD 2 0 = 1 := by norm_num [nfsExact]
  have n3 : nfsExact.getD 3 0 = 1 := by norm_num [nfsExact]
  have n4 : nfsExact.getD 4 0 = 1002 / 1000 := by norm_num [nfsExact]
  have n5 : nfsExact.getD 5 0 = 10462 / 10000 := by norm_num [nfsExact]
  rw [n2] at b2
  rw [n3] at b3
  rw [n4] at b4
  rw [n5] at b5
  have d3 : (differencesExact (movingAveragesExact (closesOfExact sampleParseExact risingKlines))).getD 2 0
      < 0 := by
    rw [differencesExact_movingAverages]
    simp only [List.getD_cons_zero, List.getD_cons_succ]
    rw [n2, n4]
    linarith [b2.2, b4.1]
  have d4 : (differencesExact (movingAveragesExact (closesOfExact sampleParseExact risingKlines))).getD 3 0
      < 0 := by
    rw [differencesExact_movingAverages]
    simp only [List.getD_cons_zero, List.getD_cons_succ]
    rw [n3, n5]
    linarith [b3.2, b5.1]
  have hscore : computeIndicatorExact sampleParseExact (.ok risingKlines) = .ok 0 := by
    rw [computeIndicatorExact_of_enough sampleParseExact risingKlines (by rw [hlen]; decide),
      signOfExact_of_nonneg _ hpos.1.le, signOfExact_of_nonneg _ hpos.2.le, signOfExact_of_neg _ d3,
      signOfExact_of_neg _ d4]
    norm_num
  refine ⟨hlen, risingExact_increasing, d3, d4, hscore, ?_⟩
  rw [hscore]
  intro h
  injection h with h
  exact absurd h (by norm_num)

/-- Exact arithmetic: for every close series of 200 points that rises strictly in time, the
differences d1 and d2 (between averages of equal normalisation factor) are positive, so the
score is 0, 0.5 or 1; it is 1 exactly when d3 and d4, which carry the factors 1.0020 and 1.0462
on the longer horizon, are not negative. -/
theorem computeIndicatorExact_rising (parseReal : String → ℚ) (klines : List Kline)
    (hlen : klines.length = 200)
    (hinc : (klines.map (fun k => parseReal k.Close)).Pairwise (fun a b => a < b)) :
    0 < (differencesExact (movingAveragesExact (closesOfExact parseReal klines))).getD 0 0 ∧
    0 < (differencesExact (movingAveragesExact (closesOfExact parseReal klines))).getD 1 0 ∧
    ∃ s : ℚ, computeIndicatorExact parseReal (.ok klines) = .ok s ∧
      (s = 0 ∨ s = 1 / 2 ∨ s = 1) ∧
      (s = 1 ↔
        0 ≤ (differencesExact (movingAveragesExact (closesOfExact parseReal klines))).getD 2 0 ∧
        0 ≤ (differencesExact (movingAveragesExact (closesOfExact parseReal klines))).getD 3 0) := by
  have hpos := differencesExact_rising parseReal klines (by rw [hlen]; decide) hinc
  refine ⟨hpos.1, hpos.2, _,
    computeIndicatorExact_of_enough parseReal klines (by rw [hlen]; decide), ?_, ?_⟩
  · rw [signOfExact_of_nonneg _ hpos.1.le, signOfExact_of_nonneg _ hpos.2.le]
    rcases signOfExact_cases ((differencesExact (movingAveragesExact (closesOfExact parseReal klines))).getD 2 0)
      with h3 | h3 <;>
    rcases signOfExact_cases ((differencesExact (movingAveragesExact (closesOfExact parseReal klines))).getD 3 0)
      with h4 | h4 <;>
    rw [h3, h4] <;> norm_num
  · rw [signOfExact_of_nonneg _ hpos.1.le, signOfExact_of_nonneg _ hpos.2.le]
    by_cases h3 : 0 ≤ (differencesExact (movingAveragesExact (closesOfExact parseReal klines))).getD 2 0 <;>
    by_cases h4 : 0 ≤ (differencesExact (movingAveragesExact (closesOfExact parseReal klines))).getD 3 0
    · rw [signOfExact_of_nonneg _ h3, signOfExact_of_nonneg _ h4]
      norm_num
      exact ⟨h3, h4⟩
    · rw [signOfExact_of_nonneg _ h3, signOfExact_of_neg _ (not_le.1 h4)]
      norm_num
      intro _
      exact not_le.1 h4
    · rw [signOfExact_of_neg _ (not_le.1 h3), signOfExact_of_nonneg _ h4]
      norm_num
      intro hc
      exact absurd hc h3
    · rw [signOfExact_of_neg _ (not_le.1 h3), signOfExact_of_neg _ (not_le.1 h4)]
      norm_num
      intro hc
      exact absurd hc h3

/-- Exact arithmetic: the first two differences of the closes 100000, ..., 100199. -/
theorem computeIndicatorExact_rising_witness :
    0 < (differencesExact (movingAveragesExact (closesOfExact sampleParseExact risingKlines))).getD 0 0 ∧
    0 < (differencesExact (movingAveragesExact (closesOfExact sampleParseExact risingKlines))).getD 1 0 :=
  ⟨(computeIndicatorExact_rising sampleParseExact risingKlines (by simp [risingKlines])
      risingExact_increasing).1,
    (computeIndicatorExact_rising sampleParseExact risingKlines (by simp [risingKlines])
      risingExact_increasing).2.1⟩

/-- Exact arithmetic: for a close value `c > 0` and a series of exactly 180 closes all equal
to `c`, each of the six moving averages is `c * nf_i`, the differences are `0`, `0`, `c * (1 - 1.0020) < 0` and
`c * (1 - 1.0462) < 0`, the signs are `+1, +1, -1, -1` (zero counts as positive) and the score
is 0. -/
theorem computeIndicatorExact_flat (parseReal : String → ℚ) (klines : List Kline) (c : ℚ)
    (hc : 0 < c) (hlen : klines.length = 180)
    (hall : ∀ k ∈ klines, parseReal k.Close = c) :
    movingAveragesExact (closesOfExact parseReal klines) =
      [c * nfsExact.getD 0 0, c * nfsExact.getD 1 0, c * nfsExact.getD 2 0, c * nfsExact.getD 3 0,
        c * nfsExact.getD 4 0, c * nfsExact.getD 5 0] ∧
    differencesExact (movingAveragesExact (closesOfExact parseReal klines)) =
      [0, 0, c * (1 - 1.0020), c * (1 - 1.0462)] ∧
    c * (1 - 1.0020) < 0 ∧ c * (1 - 1.0462) < 0 ∧
    (differencesExact (movingAveragesExact (closesOfExact parseReal klines))).map signOfExact = [1, 1, -1, -1] ∧
    computeIndicatorExact parseReal (.ok klines) = .ok 0 := by
  have hcl : 0 < (closesOfExact parseReal klines).length := by
    rw [closesOfExact_length, hlen]
    decide
  have hconst : ∀ p ∈ closesOfExact parseReal klines, p = c := by
    intro p hp
    unfold closesOfExact at hp
    obtain ⟨k, hk, rfl⟩ := List.mem_map.1 hp
    exact hall k (List.mem_reverse.1 hk)
  have hma : ∀ lam nf : ℚ, 0 < lam → lam < 1 →
      ewmaExact (closesOfExact parseReal klines) lam nf = c * nf :=
    fun lam nf h0 h1 => ewmaExact_const_mem _ lam nf c h0 h1 hcl hconst
  have hmas : movingAveragesExact (closesOfExact parseReal klines) =
      [c * nfsExact.getD 0 0, c * nfsExact.getD 1 0, c * nfsExact.getD 2 0, c * nfsExact.getD 3 0,
        c * nfsExact.getD 4 0, c * nfsExact.getD 5 0] := by
    unfold movingAveragesExact
    rw [hma _ _ (by norm_num [lambdasExact]) (by norm_num [lambdasExact]),
      hma _ _ (by norm_num [lambdasExact]) (by norm_num [lambdasExact]),
      hma _ _ (by norm_num [lambdasExact]) (by norm_num [lambdasExact]),
      hma _ _ (by norm_num [lambdasExact]) (by norm_num [lambdasExact]),
      hma _ _ (by norm_num [lambdasExact]) (by norm_num [lambdasExact]),
      hma _ _ (by norm_num [lambdasExact]) (by norm_num [lambdasExact])]
  have hd : differencesExact (movingAveragesExact (closesOfExact parseReal klines)) =
      [0, 0, c * (1 - 1.0020), c * (1 - 1.0462)] := by
    rw [hmas]
    simp only [differencesExact, nfsExact, List.getD_cons_zero, List.getD_cons_succ]
    norm_num
    constructor <;> ring
  have h3 : c * (1 - 1.0020) < 0 := by
    have : (1 : ℚ) - 1.0020 < 0 := by norm_num
    exact mul_neg_of_pos_of_neg hc this
  have h4 : c * (1 - 1.0462) < 0 := by
    have : (1 : ℚ) - 1.0462 < 0 := by norm_num
    exact mul_neg_of_pos_of_neg hc this
  refine ⟨hmas, hd, h3, h4, ?_, ?_⟩
  · rw [hd]
    simp only [List.map_cons, List.map_nil]
    rw [signOfExact_of_nonneg 0 le_rfl, signOfExact_of_neg _ h3, signOfExact_of_neg _ h4]
  · rw [computeIndicatorExact_of_enough parseReal klines (by rw [hlen]; decide), hd]
    simp only [List.getD_cons_zero, List.getD_cons_succ]
    rw [signOfExact_of_nonneg 0 le_rfl, signOfExact_of_neg _ h3, signOfExact_of_neg _ h4]
    norm_num

theorem sampleParseExact_100 : sampleParseExact "100" = 100 := by
  have hdig : ("100" : String).data.all Char.isDigit = true := by decide
  have hval : parseDigits "100" = 100 := by decide
  simp only [sampleParseExact, hdig, if_true, hval]
  norm_num

/-- Exact arithmetic: the score of 180 closes of 100. -/
theorem computeIndicatorExact_flat_witness :
    computeIndicatorExact sampleParseExact (.ok flatKlines) = .ok 0 :=
  (computeIndicatorExact_flat sampleParseExact flatKlines 100 (by norm_num)
    (by rw [flatKlines, List.length_replicate])
    (fun k hk => by
      rw [List.eq_of_mem_replicate hk]
      exact sampleParseExact_100)).2.2.2.2.2

/-! ## Theorems: the candle fetch -/

theorem klineOfEntry_ne_error (entry : List JSON) (e : String) :
    klineOfEntry entry ≠ .error e := by
  have hf : ∀ i, (∃ x, assertFloat64 entry i = .ok x) ∨ ∃ m, assertFloat64 entry i = .panic m := by
    intro i
    unfold assertFloat64
    split
    · exact Or.inr ⟨_, rfl⟩
    · exact Or.inl ⟨_, rfl⟩
    · exact Or.inr ⟨_, rfl⟩
  have hs : ∀ i, (∃ x, assertString entry i = .ok x) ∨ ∃ m, assertString entry i = .panic m := by
    intro i
    unfold assertString
    split
    · exact Or.inr ⟨_, rfl⟩
    · exact Or.inl ⟨_, rfl⟩
    · exact Or.inr ⟨_, rfl⟩
  unfold klineOfEntry
  rcases hf 0 with ⟨x0, h0⟩ | ⟨m, h0⟩ <;> rw [h0] <;> simp only [Run.andThen] <;>
    try (intro h; cases h)
  rcases hs 1 with ⟨x1, h1⟩ | ⟨m, h1⟩ <;> rw [h1] <;> simp only [Run.andThen] <;>
    try (intro h; cases h)
  rcases hs 2 with ⟨x2, h2⟩ | ⟨m, h2⟩ <;> rw [h2] <;> simp only [Run.andThen] <;>
    try (intro h; cases h)
  rcases hs 3 with ⟨x3, h3⟩ | ⟨m, h3⟩ <;> rw [h3] <;> simp only [Run.andThen] <;>
    try (intro h; cases h)
  rcases hs 4 with ⟨x4, h4⟩ | ⟨m, h4⟩ <;> rw [h4] <;> simp only [Run.andThen] <;>
    try (intro h; cases h)
  rcases hs 5 with ⟨x5, h5⟩ | ⟨m, h5⟩ <;> rw [h5] <;> simp only [Run.andThen] <;>
    try (intro h; cases h)
  rcases hf 6 with ⟨x6, h6⟩ | ⟨m, h6⟩ <;> rw [h6] <;> simp only [Run.andThen] <;>
    try (intro h; cases h)

/-- Once the outer decode has succeeded the loop of `FetchKlines` has no error return: it ends
with candles or with a panic. -/
theorem klinesOfRaw_ne_error (raw : List (List JSON)) :
    ∀ e : String, klinesOfRaw raw ≠ .error e := by
  induction raw with
  | nil =>
    intro e h
    cases h
  | cons entry rest ih =>
    intro e
    unfold klinesOfRaw
    cases hk : klineOfEntry entry with
    | error e2 => exact absurd hk (klineOfEntry_ne_error entry e2)
    | panic m =>
      simp only [Run.andThen]
      intro h
      cases h
    | ok k =>
      simp only [Run.andThen]
      cases hr : klinesOfRaw rest with
      | error e2 => exact absurd hr (ih e2)
      | panic m =>
        intro h
        cases h
      | ok ks =>
        intro h
        cases h

/-- C11 (failing input): a body that is an array holding a tuple of two elements makes
`FetchKlines` panic on `entry[2]`, and a seven-element tuple whose close is a number makes it
panic on the type assertion; no body whose outer decode succeeds ever gives an error return. The
body `null` gives no candles and no error. Only a body that is not an array of arrays, such as
the object the endpoint sends for an unknown symbol, gives the error return. -/
theorem FetchKlines_panics_on_malformed_tuple :
    FetchKlines (.ok (.ok (.array [shortTuple]))) =
      .panic "runtime error: index out of range [2] with length 2" ∧
    FetchKlines (.ok (.ok (.array [numericCloseTuple]))) =
      .panic "interface conversion: interface \x7b\x7d is float64, not string" ∧
    (∀ (raw : List (List JSON)) (e : String), klinesOfRaw raw ≠ .error e) ∧
    FetchKlines (.ok (.ok .null)) = .ok [] ∧
    FetchKlines (.ok (.ok (.object
      [("code", .number (-1121)), ("msg", .string "Invalid symbol.")]))) =
      .error "json: cannot unmarshal object into Go value of type [][]interface \x7b\x7d" :=
  ⟨rfl, rfl, klinesOfRaw_ne_error, rfl, rfl⟩

/-- A well-formed tuple is decoded by position, the positions after the seventh ignored. -/
theorem FetchKlines_sampleTuple :
    FetchKlines (.ok (.ok (.array [sampleTuple]))) =
      .ok [⟨1499040000000, "0.01634790", "0.80000000", "0.01575800", "0.01577100",
        "148976.11427815", 1499644799999⟩] := by
  have h1 : truncToInt 1499040000000 = 1499040000000 := by
    unfold truncToInt
    rw [if_pos (by norm_num)]
    exact Int.floor_natCast 1499040000000
  have h2 : truncToInt 1499644799999 = 1499644799999 := by
    unfold truncToInt
    rw [if_pos (by norm_num)]
    exact Int.floor_natCast 1499644799999
  simp only [FetchKlines, decodeRaw, decodeEntries, decodeEntry, sampleTuple, klinesOfRaw,
    klineOfEntry, assertFloat64, assertString, List.get?, Run.andThen, h1, h2]

/-! ## Theorems: rising and falling series -/

theorem ewmaExact_neg (prices : List ℚ) (lam nf : ℚ) :
    ewmaExact (prices.map (fun p => -p)) lam nf = -ewmaExact prices lam nf := by
  rw [ewmaExact_eq_sum, ewmaExact_eq_sum, List.length_map]
  have e : ∑ i ∈ Finset.range prices.length,
      (1 - lam) * lam ^ i * (prices.map (fun p => -p)).getD i 0 * nf =
      -∑ i ∈ Finset.range prices.length, (1 - lam) * lam ^ i * prices.getD i 0 * nf := by
    rw [← Finset.sum_neg_distrib]
    apply Finset.sum_congr rfl
    intro i hi
    have hlt := Finset.mem_range.1 hi
    rw [List.getD_eq_getElem _ _ (by simpa using hlt), List.getD_eq_getElem _ _ hlt,
      List.getElem_map]
    ring
  rw [e]
  ring

/-- On prices that rise strictly with the index (a series falling in time, most recent first)
the moving average is strictly smaller for the smaller decay factor. -/
theorem ewmaExact_lt_of_rising_index (prices : List ℚ) (lam mu nf : ℚ) (h0 : 0 < lam)
    (hlt : lam < mu) (h1 : mu < 1) (hnf : 0 < nf) (hn : 2 ≤ prices.length)
    (hrise : prices.Pairwise (fun a b => a < b)) :
    ewmaExact prices lam nf < ewmaExact prices mu nf := by
  have hfall : (prices.map (fun p => -p)).Pairwise (fun a b => b < a) := by
    rw [List.pairwise_map]
    exact hrise.imp (fun hab => neg_lt_neg hab)
  have h := ewmaExact_lt_of_falling (prices.map (fun p => -p)) lam mu nf h0 hlt h1 hnf
    (by rw [List.length_map]; exact hn) hfall
  rw [ewmaExact_neg, ewmaExact_neg] at h
  linarith

theorem closesOfExact_rising_index (parseReal : String → ℚ) (klines : List Kline)
    (hdec : (klines.map (fun k => parseReal k.Close)).Pairwise (fun a b => b < a)) :
    (closesOfExact parseReal klines).Pairwise (fun a b => a < b) := by
  unfold closesOfExact
  rw [List.map_reverse, List.pairwise_reverse]
  exact hdec

/-- On a series falling strictly in time the two differences between averages of equal
normalisation factor are negative. -/
theorem differencesExact_falling (parseReal : String → ℚ) (klines : List Kline)
    (hlen : 2 ≤ klines.length)
    (hdec : (klines.map (fun k => parseReal k.Close)).Pairwise (fun a b => b < a)) :
    (differencesExact (movingAveragesExact (closesOfExact parseReal klines))).getD 0 0 < 0 ∧
    (differencesExact (movingAveragesExact (closesOfExact parseReal klines))).getD 1 0 < 0 := by
  have hrise := closesOfExact_rising_index parseReal klines hdec
  have hl : 2 ≤ (closesOfExact parseReal klines).length := by
    rw [closesOfExact_length]
    exact hlen
  rw [differencesExact_movingAverages]
  simp only [List.getD_cons_zero, List.getD_cons_succ]
  constructor
  · have := ewmaExact_lt_of_rising_index (closesOfExact parseReal klines) (lambdasExact.getD 0 0)
      (lambdasExact.getD 2 0) (nfsExact.getD 0 0) (by norm_num [lambdasExact]) (by norm_num [lambdasExact])
      (by norm_num [lambdasExact]) (by norm_num [nfsExact]) hl hrise
    have e : nfsExact.getD 2 0 = nfsExact.getD 0 0 := by norm_num [nfsExact]
    rw [e]
    linarith
  · have := ewmaExact_lt_of_rising_index (closesOfExact parseReal klines) (lambdasExact.getD 1 0)
      (lambdasExact.getD 3 0) (nfsExact.getD 1 0) (by norm_num [lambdasExact]) (by norm_num [lambdasExact])
      (by norm_num [lambdasExact]) (by norm_num [nfsExact]) hl hrise
    have e : nfsExact.getD 3 0 = nfsExact.getD 1 0 := by norm_num [nfsExact]
    rw [e]
    linarith

theorem fallingExact_closes :
    fallingKlines.map (fun k => sampleParseExact k.Close) =
      (List.range 200).map (fun t : ℕ => (100199 - t : ℚ)) := by
  have hdig : ∀ t, t < 200 → (Nat.repr (100199 - t)).data.all Char.isDigit = true := by
    set_option maxRecDepth 100000 in decide
  have hval : ∀ t, t < 200 → parseDigits (Nat.repr (100199 - t)) = 100199 - t := by
    set_option maxRecDepth 100000 in decide
  unfold fallingKlines
  rw [List.map_map]
  apply List.map_congr_left
  intro t ht
  have hlt := List.mem_range.1 ht
  simp only [Function.comp, klineWithClose, sampleParseExact, hdig t hlt, if_true, hval t hlt]
  rw [Nat.cast_sub (by omega)]
  norm_num

theorem fallingExact_decreasing :
    (fallingKlines.map (fun k => sampleParseExact k.Close)).Pairwise (fun a b => b < a) := by
  rw [fallingExact_closes, List.pairwise_map]
  apply (List.pairwise_lt_range 200).imp
  intro a b hab
  have : (a : ℚ) < (b : ℚ) := by exact_mod_cast hab
  linarith

/-- Exact arithmetic: for every close series of at least 180 points, if it rises strictly in
time then the normalised average of the closes (most recent first) falls strictly as the decay factor grows
within (0, 1), `d1 = MA0 - MA2 > 0`, `d2 = MA1 - MA3 > 0` and the exact score is
at least 0; if it falls strictly in time then `d1 < 0`, `d2 < 0` and the score is at most 0. -/
theorem computeIndicatorExact_sign_of_monotone (parseReal : String → ℚ) (klines : List Kline)
    (hlen : 180 ≤ klines.length) :
    ((klines.map (fun k => parseReal k.Close)).Pairwise (fun a b => a < b) →
      (∀ lam mu : ℚ, 0 < lam → lam < mu → mu < 1 →
        ewmaExact (closesOfExact parseReal klines) mu 1 < ewmaExact (closesOfExact parseReal klines) lam 1) ∧
      0 < (differencesExact (movingAveragesExact (closesOfExact parseReal klines))).getD 0 0 ∧
      0 < (differencesExact (movingAveragesExact (closesOfExact parseReal klines))).getD 1 0 ∧
      ∃ s : ℚ, computeIndicatorExact parseReal (.ok klines) = .ok s ∧ 0 ≤ s) ∧
    ((klines.map (fun k => parseReal k.Close)).Pairwise (fun a b => b < a) →
      (differencesExact (movingAveragesExact (closesOfExact parseReal klines))).getD 0 0 < 0 ∧
      (differencesExact (movingAveragesExact (closesOfExact parseReal klines))).getD 1 0 < 0 ∧
      ∃ s : ℚ, computeIndicatorExact parseReal (.ok klines) = .ok s ∧ s ≤ 0) := by
  have hge : ¬ klines.length < 180 := by omega
  constructor
  · intro hinc
    have hpos := differencesExact_rising parseReal klines (by omega) hinc
    refine ⟨?_, hpos.1, hpos.2, _, computeIndicatorExact_of_enough parseReal klines hge, ?_⟩
    · intro lam mu h0 hlt h1
      exact ewmaExact_lt_of_falling _ lam mu 1 h0 hlt h1 one_pos
        (by rw [closesOfExact_length]; omega) (closesOfExact_falling parseReal klines hinc)
    · rw [signOfExact_of_nonneg _ hpos.1.le, signOfExact_of_nonneg _ hpos.2.le]
      rcases signOfExact_cases ((differencesExact (movingAveragesExact (closesOfExact parseReal klines))).getD 2 0)
        with h3 | h3 <;>
      rcases signOfExact_cases ((differencesExact (movingAveragesExact (closesOfExact parseReal klines))).getD 3 0)
        with h4 | h4 <;>
      rw [h3, h4] <;> norm_num
  · intro hdec
    have hneg := differencesExact_falling parseReal klines (by omega) hdec
    refine ⟨hneg.1, hneg.2, _, computeIndicatorExact_of_enough parseReal klines hge, ?_⟩
    rw [signOfExact_of_neg _ hneg.1, signOfExact_of_neg _ hneg.2]
    rcases signOfExact_cases ((differencesExact (movingAveragesExact (closesOfExact parseReal klines))).getD 2 0)
      with h3 | h3 <;>
    rcases signOfExact_cases ((differencesExact (movingAveragesExact (closesOfExact parseReal klines))).getD 3 0)
      with h4 | h4 <;>
    rw [h3, h4] <;> norm_num

/-- Exact arithmetic: the scores of the closes 100000, ..., 100199 for the
rising half and 100199, ..., 100000 for the falling half. -/
theorem computeIndicatorExact_sign_of_monotone_witness :
    (∃ s : ℚ, computeIndicatorExact sampleParseExact (.ok risingKlines) = .ok s ∧ 0 ≤ s) ∧
    (∃ s : ℚ, computeIndicatorExact sampleParseExact (.ok fallingKlines) = .ok s ∧ s ≤ 0) :=
  ⟨((computeIndicatorExact_sign_of_monotone sampleParseExact risingKlines
      (by simp [risingKlines])).1 risingExact_increasing).2.2.2,
    ((computeIndicatorExact_sign_of_monotone sampleParseExact fallingKlines
      (by simp [fallingKlines])).2 fallingExact_decreasing).2.2⟩

/-! ## Theorems: the `float64` trend score -/

/-- The sixteen outcomes of the four tests: the score is `(2 * k - 4) / 4` for `k` tests that
hold, every addition, subtraction and the division by 4 being exact. -/
theorem scoreOfSigns_eq_quarters :
    ∀ b0 b1 b2 b3 : Bool,
      scoreOfSigns b0 b1 b2 b3 = quarters (b0.toNat + b1.toNat + b2.toNat + b3.toNat) := by
  decide!

theorem scoreOfSigns_eq_one_iff :
    ∀ b0 b1 b2 b3 : Bool,
      scoreOfSigns b0 b1 b2 b3 = F64.one ↔ (b0 = true ∧ b1 = true ∧ b2 = true ∧ b3 = true) := by
  decide!

theorem toRat_negOne : F64.negOne.toRat = some (-1) := by
  simp only [F64.negOne, F64.toRat, cond_true]
  norm_num

theorem toRat_negHalf : F64.negHalf.toRat = some (-1 / 2) := by
  simp only [F64.negHalf, F64.toRat, cond_true]
  norm_num

theorem toRat_zero : F64.zero.toRat = some 0 := by
  simp only [F64.zero, F64.toRat, cond_false]
  norm_num

theorem toRat_half : F64.half.toRat = some (1 / 2) := by
  simp only [F64.half, F64.toRat, cond_false]
  norm_num

theorem toRat_one : F64.one.toRat = some 1 := by
  simp only [F64.one, F64.toRat, cond_false]
  norm_num

theorem scoreOfSigns_toRat (b0 b1 b2 b3 : Bool) :
    (scoreOfSigns b0 b1 b2 b3).toRat =
      some (((bif b0 then 1 else -1) + (bif b1 then 1 else -1) + (bif b2 then 1 else -1) +
        (bif b3 then 1 else -1)) / 4) := by
  rw [scoreOfSigns_eq_quarters]
  cases b0 <;> cases b1 <;> cases b2 <;> cases b3 <;>
    simp only [Bool.toNat_true, Bool.toNat_false, quarters, toRat_negOne, toRat_negHalf,
      toRat_zero, toRat_half, toRat_one, cond_true, cond_false] <;>
    norm_num

/-- The score of a series of at least 180 candles is decided by the four tests `d >= 0`. -/
theorem computeIndicator_of_enough (parseFloat : String → F64) (klines : List Kline)
    (h : ¬ klines.length < 180) :
    computeIndicator parseFloat (.ok klines) =
      .ok (scoreOfSigns
        (F64.ge0 ((differences (movingAverages (closesOf parseFloat klines))).getD 0 F64.zero))
        (F64.ge0 ((differences (movingAverages (closesOf parseFloat klines))).getD 1 F64.zero))
        (F64.ge0 ((differences (movingAverages (closesOf parseFloat klines))).getD 2 F64.zero))
        (F64.ge0 ((differences (movingAverages (closesOf parseFloat klines))).getD 3 F64.zero)))
      := by
  simp only [computeIndicator, h, if_false]
  rfl

/-- C9: for every candle series with fewer than 180 entries that the fetch returns, whatever
the closes are and however they parse, `computeIndicator` returns score 0 and no error; and when
the fetch fails, `computeIndicator` returns that same error. -/
theorem computeIndicator_short (parseFloat : String → F64) (klines : List Kline)
    (hlen : klines.length < 180) :
    computeIndicator parseFloat (.ok klines) = .ok F64.zero ∧
    (∀ err : String, computeIndicator parseFloat (.error err) = .error err) := by
  constructor
  · simp only [computeIndicator, hlen, if_true]
  · intro err
    rfl

/-- Witness of `computeIndicator_short`: 50 candles. -/
theorem computeIndicator_short_witness :
    computeIndicator sampleParseFloat (.ok shortKlines) = .ok F64.zero :=
  (computeIndicator_short sampleParseFloat shortKlines
    (by rw [shortKlines, List.length_replicate]; decide)).1

/-- C10: for every successfully fetched candle series, whatever `float64` values the closes
parse to (NaN and the infinities included), the score returned by `computeIndicator` is one of
-1, -0.5, 0, 0.5, 1: it is 0 below 180 candles and otherwise the mean of the signs of the four
differences, each sign being +1 or -1. -/
theorem computeIndicator_score_range (parseFloat : String → F64) (klines : List Kline) :
    ∃ s : F64, computeIndicator parseFloat (.ok klines) = .ok s ∧
      (s.toRat = some (-1) ∨ s.toRat = some (-1 / 2) ∨ s.toRat = some 0 ∨
        s.toRat = some (1 / 2) ∨ s.toRat = some 1) ∧
      (∃ s1 s2 s3 s4 : ℚ, (s1 = 1 ∨ s1 = -1) ∧ (s2 = 1 ∨ s2 = -1) ∧ (s3 = 1 ∨ s3 = -1) ∧
        (s4 = 1 ∨ s4 = -1) ∧ s.toRat = some ((s1 + s2 + s3 + s4) / 4)) ∧
      s.toRat = some (if klines.length < 180 then 0
        else
          (signOf ((differences (movingAverages (closesOf parseFloat klines))).getD 0 F64.zero) +
            signOf ((differences (movingAverages (closesOf parseFloat klines))).getD 1 F64.zero) +
            signOf ((differences (movingAverages (closesOf parseFloat klines))).getD 2 F64.zero) +
            signOf ((differences (movingAverages (closesOf parseFloat klines))).getD 3 F64.zero))
            / 4) := by
  by_cases h : klines.length < 180
  · refine ⟨F64.zero, by simp only [computeIndicator, h, if_true], Or.inr (Or.inr (Or.inl toRat_zero)),
      ⟨1, 1, -1, -1, Or.inl rfl, Or.inl rfl, Or.inr rfl, Or.inr rfl, ?_⟩, ?_⟩
    · rw [toRat_zero]
      norm_num
    · rw [toRat_zero]
      simp only [h, if_true]
  · have hsign : ∀ b : Bool, ((bif b then (1 : ℚ) else -1) = 1 ∨ (bif b then (1 : ℚ) else -1) = -1) := by
      intro b
      cases b
      · exact Or.inr rfl
      · exact Or.inl rfl
    refine ⟨_, computeIndicator_of_enough parseFloat klines h, ?_, ?_, ?_⟩
    · rw [scoreOfSigns_toRat]
      rcases hsign (F64.ge0
          ((differences (movingAverages (closesOf parseFloat klines))).getD 0 F64.zero))
        with h1 | h1 <;>
      rcases hsign (F64.ge0
          ((differences (movingAverages (closesOf parseFloat klines))).getD 1 F64.zero))
        with h2 | h2 <;>
      rcases hsign (F64.ge0
          ((differences (movingAverages (closesOf parseFloat klines))).getD 2 F64.zero))
        with h3 | h3 <;>
      rcases hsign (F64.ge0
          ((differences (movingAverages (closesOf parseFloat klines))).getD 3 F64.zero))
        with h4 | h4 <;>
      rw [h1, h2, h3, h4] <;> norm_num
    · exact ⟨_, _, _, _, hsign _, hsign _, hsign _, hsign _, scoreOfSigns_toRat _ _ _ _⟩
    · rw [scoreOfSigns_toRat]
      simp only [h, if_false, signOf]

/-- C7 (as amended): for every close series of 200 points, a strictly rising one included, the
score returned by `computeIndicator` is 1 exactly when each of the four tests `d >= 0` on the
`float64` differences holds (zero counts as positive, NaN does not), and it is one of -1, -0.5,
0, 0.5 otherwise. -/
theorem computeIndicator_one_iff (parseFloat : String → F64) (klines : List Kline)
    (hlen : klines.length = 200) :
    ∃ s : F64, computeIndicator parseFloat (.ok klines) = .ok s ∧
      (s = F64.one ↔
        F64.ge0 ((differences (movingAverages (closesOf parseFloat klines))).getD 0 F64.zero)
            = true ∧
          F64.ge0 ((differences (movingAverages (closesOf parseFloat klines))).getD 1 F64.zero)
            = true ∧
          F64.ge0 ((differences (movingAverages (closesOf parseFloat klines))).getD 2 F64.zero)
            = true ∧
          F64.ge0 ((differences (movingAverages (closesOf parseFloat klines))).getD 3 F64.zero)
            = true) ∧
      (s.toRat = some 1 ∨ s.toRat = some (-1) ∨ s.toRat = some (-1 / 2) ∨ s.toRat = some 0 ∨
        s.toRat = some (1 / 2)) := by
  have h : ¬ klines.length < 180 := by
    rw [hlen]
    decide
  refine ⟨_, computeIndicator_of_enough parseFloat klines h, scoreOfSigns_eq_one_iff _ _ _ _, ?_⟩
  rw [scoreOfSigns_eq_quarters]
  generalize (F64.ge0 ((differences (movingAverages (closesOf parseFloat klines))).getD 0
    F64.zero)) = b0
  generalize (F64.ge0 ((differences (movingAverages (closesOf parseFloat klines))).getD 1
    F64.zero)) = b1
  generalize (F64.ge0 ((differences (movingAverages (closesOf parseFloat klines))).getD 2
    F64.zero)) = b2
  generalize (F64.ge0 ((differences (movingAverages (closesOf parseFloat klines))).getD 3
    F64.zero)) = b3
  cases b0 <;> cases b1 <;> cases b2 <;> cases b3 <;>
    simp only [Bool.toNat_true, Bool.toNat_false, quarters, toRat_negOne, toRat_negHalf,
      toRat_zero, toRat_half, toRat_one] <;>
    norm_num

/-! ## Theorems: the sample series evaluated in `float64` -/

theorem sampleParseFloat_100 : sampleParseFloat "100" = F64.fin false 7036874417766400 (-46) := by
  decide!

theorem toRat_100 : (F64.fin false 7036874417766400 (-46)).toRat = some 100 := by
  simp only [F64.toRat, cond_false]
  norm_num

theorem flatKlines_closes :
    closesOf sampleParseFloat flatKlines =
      List.replicate 180 (F64.fin false 7036874417766400 (-46)) := by
  simp only [closesOf, flatKlines, List.reverse_replicate, List.map_replicate, klineWithClose,
    sampleParseFloat_100]

set_option maxRecDepth 1000000 in
theorem largeRisingKlines_closes :
    largeRisingKlines.map (fun k => sampleParseFloat k.Close) =
      (List.range 200).map (fun t => F64.fin false (7872367763781740 + t) 0) := by
  decide!

set_option maxRecDepth 1000000 in
theorem risingKlines_closes :
    risingKlines.map (fun k => sampleParseFloat k.Close) =
      (List.range 200).map (fun t => F64.ofInt (Int.ofNat (100000 + t))) := by
  decide!

theorem chain_of_strictlyRising :
    ∀ l : List F64, strictlyRising l = true → List.Chain' (fun a b => F64.lt a b = true) l
  | [], _ => List.chain'_nil
  | [_], _ => List.chain'_singleton _
  | a :: b :: rest, h => by
    simp only [strictlyRising, Bool.and_eq_true] at h
    exact List.Chain'.cons h.1 (chain_of_strictlyRising (b :: rest) h.2)

set_option maxRecDepth 1000000 in
theorem risingKlines_strictlyRising :
    strictlyRising (risingKlines.map (fun k => sampleParseFloat k.Close)) = true := by
  decide!

set_option maxRecDepth 1000000 in
theorem largeRisingKlines_strictlyRising :
    strictlyRising (largeRisingKlines.map (fun k => sampleParseFloat k.Close)) = true := by
  decide!

set_option maxRecDepth 1000000 in
theorem flatKlines_differences :
    differences (movingAverages (closesOf sampleParseFloat flatKlines)) =
      [F64.fin true 4503599627370496 (-98), F64.fin false 5629499534213120 (-96),
        F64.fin true 7205759403791872 (-55), F64.fin true 5201657569612992 (-50)] := by
  decide!

set_option maxRecDepth 1000000 in
theorem zeroKlines_differences :
    differences (movingAverages (closesOf sampleParseFloat zeroKlines)) =
      [F64.zero, F64.zero, F64.zero, F64.zero] := by
  decide!

set_option maxRecDepth 1000000 in
theorem largeRisingKlines_differences :
    differences (movingAverages (closesOf sampleParseFloat largeRisingKlines)) =
      [F64.fin true 4503599627370496 (-52), F64.fin false 8444249301319680 (-49),
        F64.fin true 8061304590102528 (-9), F64.fin true 5819254250987072 (-4)] := by
  decide!

set_option maxRecDepth 1000000 in
theorem risingKlines_differences :
    differences (movingAverages (closesOf sampleParseFloat risingKlines)) =
      [F64.fin false 6445803921768448 (-50), F64.fin false 6081392176308224 (-49),
        F64.fin true 6294674720194560 (-45), F64.fin true 5046784428991424 (-40)] := by
  decide!

theorem computeIndicator_flatKlines :
    computeIndicator sampleParseFloat (.ok flatKlines) = .ok F64.negHalf := by
  rw [computeIndicator_of_enough sampleParseFloat flatKlines
    (by rw [flatKlines, List.length_replicate]; decide), flatKlines_differences]
  refine congrArg Except.ok ?_
  decide!

theorem computeIndicator_zeroKlines :
    computeIndicator sampleParseFloat (.ok zeroKlines) = .ok F64.one := by
  rw [computeIndicator_of_enough sampleParseFloat zeroKlines
    (by rw [zeroKlines, List.length_replicate]; decide), zeroKlines_differences]
  refine congrArg Except.ok ?_
  decide!

theorem computeIndicator_largeRisingKlines :
    computeIndicator sampleParseFloat (.ok largeRisingKlines) = .ok F64.negHalf := by
  rw [computeIndicator_of_enough sampleParseFloat largeRisingKlines
    (by simp [largeRisingKlines]), largeRisingKlines_differences]
  refine congrArg Except.ok ?_
  decide!

theorem computeIndicator_risingKlines :
    computeIndicator sampleParseFloat (.ok risingKlines) = .ok F64.zero := by
  rw [computeIndicator_of_enough sampleParseFloat risingKlines
    (by simp [risingKlines]), risingKlines_differences]
  refine congrArg Except.ok ?_
  decide!

theorem largeRisingExact_closes :
    largeRisingKlines.map (fun k => sampleParseExact k.Close) =
      (List.range 200).map (fun t : ℕ => (7872367763781740 + t : ℚ)) := by
  have hdig : ∀ t, t < 200 →
      (Nat.repr (7872367763781740 + t)).data.all Char.isDigit = true := by
    set_option maxRecDepth 1000000 in decide!
  have hval : ∀ t, t < 200 →
      parseDigits (Nat.repr (7872367763781740 + t)) = 7872367763781740 + t := by
    set_option maxRecDepth 1000000 in decide!
  unfold largeRisingKlines
  rw [List.map_map]
  apply List.map_congr_left
  intro t ht
  have hlt := List.mem_range.1 ht
  simp only [Function.comp, klineWithClose, sampleParseExact, hdig t hlt, if_true, hval t hlt]
  push_cast
  rfl

theorem largeRisingExact_increasing :
    (largeRisingKlines.map (fun k => sampleParseExact k.Close)).Pairwise (fun a b => a < b) := by
  rw [largeRisingExact_closes, List.pairwise_map]
  apply (List.pairwise_lt_range 200).imp
  intro a b hab
  have : (a : ℚ) < (b : ℚ) := by exact_mod_cast hab
  linarith

/-- C8 (failing input): 180 closes of 100. The closes parse to the `float64` 100 exactly, yet
the six averages are not `100 * nf_i`: the first difference is `-2^(-46)` (about -1.4e-14) and
not 0, the tests `d >= 0` come out false, true, false, false, and `computeIndicator` returns
-0.5. The formula in exact arithmetic gives the differences 0, 0, -0.2, -4.62 and the score 0
on the same candles. -/
theorem computeIndicator_flat_scores_negative :
    flatKlines.length = 180 ∧
    closesOf sampleParseFloat flatKlines =
      List.replicate 180 (F64.fin false 7036874417766400 (-46)) ∧
    (F64.fin false 7036874417766400 (-46)).toRat = some 100 ∧
    differences (movingAverages (closesOf sampleParseFloat flatKlines)) =
      [F64.fin true 4503599627370496 (-98), F64.fin false 5629499534213120 (-96),
        F64.fin true 7205759403791872 (-55), F64.fin true 5201657569612992 (-50)] ∧
    (differences (movingAverages (closesOf sampleParseFloat flatKlines))).map F64.ge0 =
      [false, true, false, false] ∧
    computeIndicator sampleParseFloat (.ok flatKlines) = .ok F64.negHalf ∧
    F64.negHalf.toRat = some (-1 / 2) ∧
    differencesExact (movingAveragesExact (closesOfExact sampleParseExact flatKlines)) =
      [0, 0, 100 * (1 - 1.0020), 100 * (1 - 1.0462)] ∧
    computeIndicatorExact sampleParseExact (.ok flatKlines) = .ok 0 := by
  have hex := computeIndicatorExact_flat sampleParseExact flatKlines 100 (by norm_num)
    (by rw [flatKlines, List.length_replicate])
    (fun k hk => by
      rw [List.eq_of_mem_replicate hk]
      exact sampleParseExact_100)
  refine ⟨by rw [flatKlines, List.length_replicate], flatKlines_closes, toRat_100,
    flatKlines_differences, ?_, computeIndicator_flatKlines, toRat_negHalf, hex.2.1,
    hex.2.2.2.2.2⟩
  rw [flatKlines_differences]
  rfl

/-- C13 (failing input): the 200 closes 7872367763781740, ..., 7872367763781939, each a
`float64` exactly and each less than the next. The first difference `MA0 - MA2` is -1 in
`float64`, the test `d >= 0` fails and `computeIndicator` returns -0.5, a score below 0 on a
strictly rising series. The formula in exact arithmetic on the same candles has `d1 > 0`,
`d2 > 0` and a score of at least 0. -/
theorem computeIndicator_largeRising_scores_negative :
    largeRisingKlines.length = 200 ∧
    largeRisingKlines.map (fun k => sampleParseFloat k.Close) =
      (List.range 200).map (fun t => F64.fin false (7872367763781740 + t) 0) ∧
    List.Chain' (fun a b => F64.lt a b = true)
      (largeRisingKlines.map (fun k => sampleParseFloat k.Close)) ∧
    differences (movingAverages (closesOf sampleParseFloat largeRisingKlines)) =
      [F64.negOne, F64.fin false 8444249301319680 (-49),
        F64.fin true 8061304590102528 (-9), F64.fin true 5819254250987072 (-4)] ∧
    F64.ge0 ((differences (movingAverages (closesOf sampleParseFloat largeRisingKlines))).getD 0
      F64.zero) = false ∧
    computeIndicator sampleParseFloat (.ok largeRisingKlines) = .ok F64.negHalf ∧
    F64.negHalf.toRat = some (-1 / 2) ∧
    (largeRisingKlines.map (fun k => sampleParseExact k.Close)).Pairwise (fun a b => a < b) ∧
    0 < (differencesExact (movingAveragesExact
      (closesOfExact sampleParseExact largeRisingKlines))).getD 0 0 ∧
    0 < (differencesExact (movingAveragesExact
      (closesOfExact sampleParseExact largeRisingKlines))).getD 1 0 ∧
    (∃ s : ℚ, computeIndicatorExact sampleParseExact (.ok largeRisingKlines) = .ok s ∧ 0 ≤ s) := by
  have hex := (computeIndicatorExact_sign_of_monotone sampleParseExact largeRisingKlines
    (by simp [largeRisingKlines])).1 largeRisingExact_increasing
  refine ⟨by simp [largeRisingKlines], largeRisingKlines_closes,
    chain_of_strictlyRising _ largeRisingKlines_strictlyRising, largeRisingKlines_differences,
    ?_, computeIndicator_largeRisingKlines, toRat_negHalf, largeRisingExact_increasing,
    hex.2.1, hex.2.2.1, hex.2.2.2⟩
  rw [largeRisingKlines_differences]
  rfl

/-- C7 (counterexample): the 200 closes 100000, 100001, ..., 100199 rise strictly in time, yet
the third and fourth `float64` differences are negative (about -179 and -4590), the tests
`d >= 0` come out true, true, false, false and `computeIndicator` returns 0, not 1. -/
theorem computeIndicator_rising_scores_zero :
    risingKlines.length = 200 ∧
    risingKlines.map (fun k => sampleParseFloat k.Close) =
      (List.range 200).map (fun t => F64.ofInt (Int.ofNat (100000 + t))) ∧
    List.Chain' (fun a b => F64.lt a b = true)
      (risingKlines.map (fun k => sampleParseFloat k.Close)) ∧
    differences (movingAverages (closesOf sampleParseFloat risingKlines)) =
      [F64.fin false 6445803921768448 (-50), F64.fin false 6081392176308224 (-49),
        F64.fin true 6294674720194560 (-45), F64.fin true 5046784428991424 (-40)] ∧
    (differences (movingAverages (closesOf sampleParseFloat risingKlines))).map F64.ge0 =
      [true, true, false, false] ∧
    computeIndicator sampleParseFloat (.ok risingKlines) = .ok F64.zero ∧
    computeIndicator sampleParseFloat (.ok risingKlines) ≠ .ok F64.one := by
  refine ⟨by simp [risingKlines], risingKlines_closes,
    chain_of_strictlyRising _ risingKlines_strictlyRising, risingKlines_differences, ?_,
    computeIndicator_risingKlines, ?_⟩
  · rw [risingKlines_differences]
    rfl
  · rw [computeIndicator_risingKlines]
    intro h
    injection h with h
    exact absurd h (by decide)

/-- Witness of `computeIndicator_one_iff`: the closes 100000, ..., 100199. -/
theorem computeIndicator_one_iff_witness :
    risingKlines.length = 200 ∧
    ∃ s : F64, computeIndicator sampleParseFloat (.ok risingKlines) = .ok s ∧
      (s = F64.one ↔
        F64.ge0 ((differences (movingAverages (closesOf sampleParseFloat risingKlines))).getD 0
            F64.zero) = true ∧
          F64.ge0 ((differences (movingAverages (closesOf sampleParseFloat risingKlines))).getD 1
            F64.zero) = true ∧
          F64.ge0 ((differences (movingAverages (closesOf sampleParseFloat risingKlines))).getD 2
            F64.zero) = true ∧
          F64.ge0 ((differences (movingAverages (closesOf sampleParseFloat risingKlines))).getD 3
            F64.zero) = true) ∧
      (s.toRat = some 1 ∨ s.toRat = some (-1) ∨ s.toRat = some (-1 / 2) ∨ s.toRat = some 0 ∨
        s.toRat = some (1 / 2)) :=
  ⟨by simp [risingKlines],
    computeIndicator_one_iff sampleParseFloat risingKlines (by simp [risingKlines])⟩

/-! ## Theorems: `UpdateTrends` -/

theorem computeIndicator_shortKlines :
    computeIndicator sampleParseFloat (.ok shortKlines) = .ok F64.zero := by
  have hlen : shortKlines.length < 180 := by
    rw [shortKlines, List.length_replicate]
    decide
  simp only [computeIndicator, hlen, if_true]

/-- The values collected by the loop of `UpdateTrends` are the scores in iteration order. -/
theorem collectIndicators_ok (parseFloat : String → F64)
    (fetch : String → Except String (List Kline)) (score : String → F64)
    (h : ∀ sym, computeIndicator parseFloat (fetch sym) = .ok (score sym)) :
    ∀ (order : List (String × String)) (vals : List SQLArg),
      collectIndicators parseFloat fetch order vals =
        .ok (vals ++ order.map (fun e => SQLArg.float (score e.2))) := by
  intro order
  induction order with
  | nil => intro vals; simp [collectIndicators]
  | cons e rest ih =>
    intro vals
    simp only [collectIndicators, h, ih, List.map_cons, List.append_assoc, List.singleton_append]

theorem sampleFetch_scores (sym : String) :
    computeIndicator sampleParseFloat (sampleFetch sym) =
      .ok (if sym = "ETHUSDT" then F64.one else F64.zero) := by
  unfold sampleFetch
  split_ifs
  · exact computeIndicator_zeroKlines
  · exact computeIndicator_shortKlines

/-- C12 (failing input): when `range symbols` yields ethereum, bitcoin, solana, and the scores
are 0 for BTCUSDT, 1 for ETHUSDT and 0 for SOLUSDT, the row inserted is `(1, 0, 0, now)`: the
column `bitcoin_trend` holds the score of ETHUSDT and `ethereum_trend` that of BTCUSDT. In the
order bitcoin, ethereum, solana the same call inserts `(0, 1, 0, now)`. -/
theorem UpdateTrends_columns_follow_iteration_order :
    [("ethereum", "ETHUSDT"), ("bitcoin", "BTCUSDT"), ("solana", "SOLUSDT")].Perm symbols ∧
    computeIndicator sampleParseFloat (sampleFetch "BTCUSDT") = .ok F64.zero ∧
    computeIndicator sampleParseFloat (sampleFetch "ETHUSDT") = .ok F64.one ∧
    computeIndicator sampleParseFloat (sampleFetch "SOLUSDT") = .ok F64.zero ∧
    UpdateTrends 1700000000
        [("ethereum", "ETHUSDT"), ("bitcoin", "BTCUSDT"), ("solana", "SOLUSDT")]
        sampleParseFloat sampleFetch healthyDB =
      ([.Begin, .ExecCreateTable,
        .ExecInsert [.float F64.one, .float F64.zero, .float F64.zero, .time 1700000000],
        .Commit], none) ∧
    insertedColumn (UpdateTrends 1700000000
        [("ethereum", "ETHUSDT"), ("bitcoin", "BTCUSDT"), ("solana", "SOLUSDT")]
        sampleParseFloat sampleFetch healthyDB).1 0 = some (.float F64.one) ∧
    UpdateTrends 1700000000 symbols sampleParseFloat sampleFetch healthyDB =
      ([.Begin, .ExecCreateTable,
        .ExecInsert [.float F64.zero, .float F64.one, .float F64.zero, .time 1700000000],
        .Commit], none) := by
  have hc := collectIndicators_ok sampleParseFloat sampleFetch
    (fun sym => if sym = "ETHUSDT" then F64.one else F64.zero) sampleFetch_scores
  have hb : ("BTCUSDT" : String) ≠ "ETHUSDT" := by decide
  have hs : ("SOLUSDT" : String) ≠ "ETHUSDT" := by decide
  have hrun : UpdateTrends 1700000000
      [("ethereum", "ETHUSDT"), ("bitcoin", "BTCUSDT"), ("solana", "SOLUSDT")]
      sampleParseFloat sampleFetch healthyDB =
      ([.Begin, .ExecCreateTable,
        .ExecInsert [.float F64.one, .float F64.zero, .float F64.zero, .time 1700000000],
        .Commit], none) := by
    simp only [UpdateTrends, healthyDB, hc, List.map_cons, List.map_nil, List.nil_append,
      List.cons_append, if_true, hb, hs, if_false]
  refine ⟨?_, ?_, ?_, ?_, hrun, ?_, ?_⟩
  · exact List.Perm.swap _ _ _
  · rw [sampleFetch_scores, if_neg hb]
  · rw [sampleFetch_scores, if_pos rfl]
  · rw [sampleFetch_scores, if_neg hs]
  · rw [hrun]
    rfl
  · simp only [UpdateTrends, healthyDB, symbols, hc, List.map_cons, List.map_nil,
      List.nil_append, List.cons_append, if_true, hb, hs, if_false]

/-! ## Theorems: the body of the retried request -/

/-- C5 (failing input): a `trade` call whose first response is 429. One nonce is consumed, the
request is encoded and signed once and the same request, with the same `Sign` header, is handed
to `Do` twice; but its body reader was read to its end by the first `Do` and is not made anew,
so the retry can read no byte of the body: it carries the `Sign` of the 54-byte body and an
empty body. -/
theorem doSigned_retry_body_is_spent :
    (doSigned sampleEnv sampleClient "trade" sampleParams script429then200).client.nonce =
      1700000000000 + 1 ∧
    (doSigned sampleEnv sampleClient "trade" sampleParams script429then200).sent =
      [(signedRequest sampleEnv sampleClient "trade" sampleParams).2,
        (signedRequest sampleEnv sampleClient "trade" sampleParams).2] ∧
    (signedRequest sampleEnv sampleClient "trade" sampleParams).2.body =
      "method=trade&nonce=1700000000001&pair=btc_idr&type=buy" ∧
    (signedRequest sampleEnv sampleClient "trade" sampleParams).2.header.lookup "Sign" =
      some (sampleEnv.hmacSHA512Hex "secret"
        "method=trade&nonce=1700000000001&pair=btc_idr&type=buy") ∧
    (doSigned sampleEnv sampleClient "trade" sampleParams script429then200).bodyRead =
      ["method=trade&nonce=1700000000001&pair=btc_idr&type=buy", ""] ∧
    (doSigned sampleEnv sampleClient "trade" sampleParams script429then200).bodyRead.getD 1 "" ≠
      (signedRequest sampleEnv sampleClient "trade" sampleParams).2.body := by
  have hbody := signedRequest_sample_body
  have hread : (doSigned sampleEnv sampleClient "trade" sampleParams script429then200).bodyRead =
      ["method=trade&nonce=1700000000001&pair=btc_idr&type=buy", ""] := by
    rw [doSigned_bodyRead,
      sendWithRetry_first_429 _ script429then200 ⟨429, .ok "slow down"⟩ rfl rfl, hbody]
  refine ⟨?_, ?_, hbody, ?_, hread, ?_⟩
  · rw [doSigned_client]
    decide
  · rw [doSigned_sent, sendWithRetry_first_429 _ script429then200 ⟨429, .ok "slow down"⟩ rfl rfl]
  · decide
  · rw [hread, hbody]
    decide

end Supernova
